import Mathlib

/-!
# Cache-and-lookup core of the card bot (`main.go`, `list.go`)

A shallow embedding of the Go program: the text normalizer (`RemoveAccents`
followed by `strings.ToLower`), the two paged loaders (`loadListings`,
`loadItems`), the lookups (`getPlayerContacts`, `findCard`,
`findEligibleCaptains`, `isPlayerEligibleForCaptain`) and the chat handler
registered with `OnPrivateMessage`.

Conventions of the embedding.

* A Go `string` is a Lean `String`, read as its sequence of runes (what
  `for _, r := range s` yields).
* A Go `map[string]V` is an association list with `get`/`set`; the order of
  the list stands for the (unspecified) iteration order of the map.
* Go `int` arithmetic is 64-bit two's complement: `p + 1` is `wrap64 (p + 1)`.
* A decoded JSON number (`float64`) is the rational it denotes and
  `int(f)` is truncation towards zero for values that fit the 64-bit `int`.
* A loader takes a bound on the number of requests and ends in `Run.done`
  (it returned and installed a snapshot), `Run.panic` (it panicked outside
  any `recover`) or `Run.outOfFuel` (the bound was reached).
* The Unicode character data used by `golang.org/x/text/unicode/norm`,
  `unicode` and `strings` is not part of the repository: it is the
  parameter `UnicodeTables`.
* The mutexes only serialise the snapshot swap and are not modelled.
-/

namespace TheShowBot

/-! ## Unicode data and the library functions built on it -/

/-- Per-rune Unicode character data consulted by the library calls of the
program. -/
structure UnicodeTables where
  /-- Full canonical decomposition of a rune (`[r]` when it has none). -/
  decomp : Char → List Char
  /-- Canonical combining class. -/
  ccc : Char → Nat
  /-- Membership of the range table `unicode.Mn` (nonspacing marks). -/
  isMn : Char → Bool
  /-- The mapping `unicode.ToLower`. -/
  lower : Char → Char
  /-- Simple case folding: a representative of the `unicode.SimpleFold`
  orbit of the rune. -/
  fold : Char → Char

/-- Canonical ordering step on the reversed output buffer: a rune of
non-zero class moves in front of the trailing runes of strictly greater
class. -/
def insertOrdered (U : UnicodeTables) (c : Char) : List Char → List Char
  | [] => [c]
  | d :: ds =>
    if U.ccc c ≠ 0 ∧ U.ccc c < U.ccc d then d :: insertOrdered U c ds
    else c :: d :: ds

/-- Canonical decomposition followed by canonical ordering, on runes
(Unicode Standard Annex 15). The library also inserts U+034F into a run of
more than 30 non-starters; such runs are outside the model. -/
def nfdRunes (U : UnicodeTables) (rs : List Char) : List Char :=
  ((rs.flatMap U.decomp).foldl (fun buf c => insertOrdered U c buf) []).reverse

/-- The call `norm.NFD.String`. -/
def NFD (U : UnicodeTables) (s : String) : String :=
  String.mk (nfdRunes U s.data)

/-- The call `strings.ToLower`: `unicode.ToLower` on every rune. -/
def ToLower (U : UnicodeTables) (s : String) : String :=
  String.mk (s.data.map U.lower)

/-- The call `strings.EqualFold`: same number of runes, pairwise in the same
simple-folding orbit. -/
def EqualFold (U : UnicodeTables) (s t : String) : Bool :=
  s.data.map U.fold == t.data.map U.fold

/-- The check `strings.HasPrefix(s, p)`. -/
def startsWith (s p : String) : Bool :=
  p.data.isPrefixOf s.data

/-- The call `strings.TrimPrefix(s, p)`. -/
def trimStart (s p : String) : String :=
  if startsWith s p then String.mk (s.data.drop p.data.length) else s

/-- Substring test on runes. -/
def containsRunes (sub : List Char) : List Char → Bool
  | [] => sub.isEmpty
  | c :: cs => sub.isPrefixOf (c :: cs) || containsRunes sub cs

/-- The check `strings.Contains(s, sub)`. -/
def Contains (s sub : String) : Bool :=
  containsRunes sub.data s.data

/-- Source: `RemoveAccents`. Decompose, then copy every rune that is not a
nonspacing mark. -/
def RemoveAccents (U : UnicodeTables) (input : String) : String :=
  let t := NFD U input
  let result := t.data.foldl
    (fun (result : List Char) r => if U.isMn r then result else result ++ [r]) []
  String.mk result

/-- The key computation `strings.ToLower(RemoveAccents(x))` used by
`loadItems`, `getPlayerContacts`, `findCard` and `findEligibleCaptains`. -/
def normalize (U : UnicodeTables) (x : String) : String :=
  ToLower U (RemoveAccents U x)

/-! ## Go values -/

/-- Go `int`: wrap an integer into the 64-bit two's complement range. -/
def wrap64 (x : Int) : Int :=
  (x + 2 ^ 63) % 2 ^ 64 - 2 ^ 63

/-- A Go `map[string]V`. -/
abbrev GoMap (V : Type) := List (String × V)

/-- The read `v, ok := m[k]`. -/
def GoMap.get {V : Type} (m : GoMap V) (k : String) : Option V :=
  List.lookup k m

/-- The write `m[k] = v`. -/
def GoMap.set {V : Type} : GoMap V → String → V → GoMap V
  | [], k, v => [(k, v)]
  | (k1, v1) :: rest, k, v =>
    if k1 = k then (k, v) :: rest else (k1, v1) :: GoMap.set rest k v

/-- The values of a map in iteration order. -/
def GoMap.values {V : Type} (m : GoMap V) : List V :=
  m.map Prod.snd

/-- Source: `Item` (list.go); the fields the program reads or writes. -/
structure Item where
  UUID : String
  Name : String
  Rarity : String
  Team : String
  Ovr : Int
  ContactLeft : Int
  ContactRight : Int
  HitsPer9 : Int
  WalksPer9 : Int
  PowerLeft : Int
  PowerRight : Int
  Speed : Int
  Vision : Int
  Clutch : Int
  PitchingClutch : Int
  Fielding : Int
  Arm : Int
  ArmAccuracy : Int
  Reaction : Int
  StrikeoutsPer9 : Int
  BatHand : String

/-- The zero value `Item{}`. -/
def Item.zero : Item :=
  { UUID := "", Name := "", Rarity := "", Team := "", Ovr := 0,
    ContactLeft := 0, ContactRight := 0, HitsPer9 := 0, WalksPer9 := 0,
    PowerLeft := 0, PowerRight := 0, Speed := 0, Vision := 0, Clutch := 0,
    PitchingClutch := 0, Fielding := 0, Arm := 0, ArmAccuracy := 0,
    Reaction := 0, StrikeoutsPer9 := 0, BatHand := "" }

/-- Source: `Listing` (list.go). -/
structure Listing where
  ListingName : String
  BestSellPrice : Int
  BestBuyPrice : Int
  Item : Item

/-- Source: `BoostAttribute` (list.go). -/
structure BoostAttribute where
  Name : String
  Value : String

/-- Source: `CaptainBoost` (list.go). -/
structure CaptainBoost where
  Tier : String
  Description : String
  Attributes : List BoostAttribute

/-- Source: `Captain` (list.go). -/
structure Captain where
  UUID : String
  Name : String
  DisplayPosition : String
  Team : String
  Ovr : Int
  AbilityName : String
  AbilityDesc : String
  Boosts : List CaptainBoost

/-- Source: `ListingResponse` (list.go). -/
structure ListingResponse where
  Page : Int
  PerPage : Int
  TotalPages : Int
  Listings : List Listing

/-- The zero value `ListingResponse{}`. -/
def ListingResponse.zero : ListingResponse :=
  { Page := 0, PerPage := 0, TotalPages := 0, Listings := [] }

/-- Source: `ItemCache` (main.go), without the mutex. -/
structure ItemCache where
  items : GoMap Item
  names : GoMap (List String)

/-- A value produced by `encoding/json` when decoding into `interface{}`. -/
inductive JSON where
  | null : JSON
  | bool (b : Bool) : JSON
  | num (x : Rat) : JSON
  | str (s : String) : JSON
  | arr (xs : List JSON) : JSON
  | obj (kvs : List (String × JSON)) : JSON

/-- The type assertion `v.(string)` in its two-result form, on the result of
a map read (`none` for a missing key). -/
def asString : Option JSON → Option String
  | some (JSON.str s) => some s
  | _ => none

/-- The type assertion `v.(float64)` in its two-result form. -/
def asFloat64 : Option JSON → Option Rat
  | some (JSON.num x) => some x
  | _ => none

/-- Truncation of a rational towards zero: the fraction is discarded. -/
def truncRat (f : Rat) : Int :=
  Int.tdiv f.num f.den

/-- The conversion `int(f)` of a `float64` to the 64-bit `int`: the fraction
is discarded. When the truncated value does not fit, the Go result is
implementation-dependent; the model takes the value produced on amd64, the
smallest `int`. -/
def goInt (f : Rat) : Int :=
  if -2 ^ 63 ≤ truncRat f ∧ truncRat f < 2 ^ 63 then truncRat f else -2 ^ 63

/-- The outcome of running a loader with a bound on the number of requests. -/
inductive Run (α : Type) where
  | done (a : α) : Run α
  | panic : Run α
  | outOfFuel : Run α

/-! ## Paged loaders -/

/-- What one pass through the closure of `loadListings` leaves in `result`:
the request failed (zero value), `Decode` returned an error (whatever it had
filled in), or the page was decoded. -/
inductive ListingFetch where
  | requestError : ListingFetch
  | decodeError (result : ListingResponse) : ListingFetch
  | ok (result : ListingResponse) : ListingFetch

/-- The value of `result` after the closure has run. -/
def ListingFetch.result : ListingFetch → ListingResponse
  | ListingFetch.requestError => ListingResponse.zero
  | ListingFetch.decodeError r => r
  | ListingFetch.ok r => r

/-- Source: `loadListings`, lines 93-95: the listings of a decoded page are
written into `tempListings`; a failed attempt writes nothing. -/
def mergeListings (f : ListingFetch) (tempListings : GoMap Listing) : GoMap Listing :=
  match f with
  | ListingFetch.ok r => r.Listings.foldl (fun m l => m.set l.Item.UUID l) tempListings
  | _ => tempListings

/-- Source: `loadListings`, the `for` loop of lines 64-101, with a bound on
the number of requests. -/
def loadListingsLoop (src : Int → ListingFetch) :
    Nat → Int → GoMap Listing → Run (GoMap Listing)
  | 0, _, _ => Run.outOfFuel
  | fuel + 1, p, tempListings =>
    let result := (src p).result
    let tempListings := mergeListings (src p) tempListings
    let p := wrap64 (result.Page + 1)
    if p > result.TotalPages then Run.done tempListings
    else loadListingsLoop src fuel p tempListings

/-- Source: `loadListings`. The returned map is the new value of
`listings.listings`; the previous one is discarded. -/
def loadListings (src : Int → ListingFetch) (fuel : Nat) (_listings : GoMap Listing) :
    Run (GoMap Listing) :=
  loadListingsLoop src fuel 1 []

/-- Source: `loadItems`, lines 164-181: the field read
`x, _ := item[key].(float64)` followed by `int(x)`. -/
def intField (item : List (String × JSON)) (key : String) : Int :=
  goInt ((asFloat64 (item.lookup key)).getD 0)

/-- Source: `loadItems`, lines 183-202: the struct literal `itemDetails`. -/
def itemDetails (item : List (String × JSON)) (uuid name : String) (ovr : Rat) : Item :=
  { Item.zero with
    UUID := uuid
    Name := name
    Ovr := goInt ovr
    ContactLeft := intField item "contact_left"
    ContactRight := intField item "contact_right"
    HitsPer9 := intField item "hits_per_bf"
    WalksPer9 := intField item "bb_per_bf"
    PowerLeft := intField item "power_left"
    PowerRight := intField item "power_right"
    Speed := intField item "speed"
    Vision := intField item "plate_vision"
    Clutch := intField item "batting_clutch"
    PitchingClutch := intField item "pitching_clutch"
    Fielding := intField item "fielding_ability"
    Arm := intField item "arm_strength"
    ArmAccuracy := intField item "arm_accuracy"
    Reaction := intField item "reaction_time"
    StrikeoutsPer9 := intField item "k_per_bf" }

/-- Source: `loadItems`, lines 159-206: the Item built from one element of
`items`, or `none` when the element is skipped (it is not an object, or
`uuidOk && nameOk && ovrOk` is false). -/
def parseItem (i : JSON) : Option Item :=
  match i with
  | JSON.obj item =>
    match asString (item.lookup "uuid"), asString (item.lookup "name"),
        asFloat64 (item.lookup "ovr") with
    | some uuid, some name, some ovr => some (itemDetails item uuid name ovr)
    | _, _, _ => none
  | _ => none

/-- The pair `tempItems`, `tempNames` of `loadItems`. -/
structure TempItems where
  tempItems : GoMap Item
  tempNames : GoMap (List String)

/-- Source: `loadItems`, lines 203-205: store the Item under its uuid and
append the uuid to the list of its normalized name. -/
def storeItem (U : UnicodeTables) (t : TempItems) (itemDetails : Item) : TempItems :=
  let normalizedName := ToLower U (RemoveAccents U itemDetails.Name)
  { tempItems := t.tempItems.set itemDetails.UUID itemDetails
    tempNames := t.tempNames.set normalizedName
      ((t.tempNames.get normalizedName).getD [] ++ [itemDetails.UUID]) }

/-- Source: `loadItems`, the body of the loop over `items` (lines 158-207). -/
def processItem (U : UnicodeTables) (t : TempItems) (i : JSON) : TempItems :=
  match parseItem i with
  | some itemDetails => storeItem U t itemDetails
  | none => t

/-- Source: `loadItems`, lines 150-207: what the closure does with the
decoded response. -/
def processPage (U : UnicodeTables) (itemResult : List (String × JSON)) (t : TempItems) :
    TempItems :=
  match itemResult.lookup "items" with
  | some (JSON.arr items) => if items.length = 0 then t else items.foldl (processItem U) t
  | _ => t

/-- Source: `loadItems`, the `for` loop of lines 118-213 followed by the
installation of lines 216-219, with a bound on the number of requests. The
source answers `none` when the request or the decoding fails (`itemResult`
stays empty). The type assertions of lines 209-210 are outside the closure
that recovers. -/
def loadItemsLoop (U : UnicodeTables) (src : Int → Option (List (String × JSON))) :
    Nat → Int → TempItems → Run ItemCache
  | 0, _, _ => Run.outOfFuel
  | fuel + 1, itemPage, t =>
    let itemResult := (src itemPage).getD []
    let t := processPage U itemResult t
    match itemResult.lookup "page" with
    | some (JSON.num page) =>
      let itemPage := wrap64 (goInt page + 1)
      match itemResult.lookup "total_pages" with
      | some (JSON.num totalPages) =>
        if itemPage > goInt totalPages then
          Run.done { items := t.tempItems, names := t.tempNames }
        else loadItemsLoop U src fuel itemPage t
      | _ => Run.panic
    | _ => Run.panic

/-- Source: `loadItems`. The returned cache is the new value of `itemCache`;
the previous one is discarded. -/
def loadItems (U : UnicodeTables) (src : Int → Option (List (String × JSON))) (fuel : Nat)
    (_itemCache : ItemCache) : Run ItemCache :=
  loadItemsLoop U src fuel 1 { tempItems := [], tempNames := [] }

/-! ## Lookups -/

/-- Source: `getPlayerContacts`. -/
def getPlayerContacts (U : UnicodeTables) (itemCache : ItemCache) (name : String) :
    List Item :=
  let normalizedName := ToLower U (RemoveAccents U name)
  match itemCache.names.get normalizedName with
  | none => []
  | some uuids =>
    uuids.foldl (fun (items : List Item) uuid =>
      match itemCache.items.get uuid with
      | some item => items ++ [item]
      | none => items) []

/-- Source: `findCard`. -/
def findCard (U : UnicodeTables) (listings : GoMap Listing) (playerName : String) :
    List Listing :=
  let normalizedPlayerName := ToLower U (RemoveAccents U playerName)
  listings.values.foldl (fun (result : List Listing) listing =>
    if EqualFold U (ToLower U (RemoveAccents U listing.Item.Name)) normalizedPlayerName
    then result ++ [listing] else result) []

/-- Source: `isPlayerEligibleForCaptain`. -/
def isPlayerEligibleForCaptain (U : UnicodeTables) (item : Item) (captain : Captain) : Bool :=
  let description := ToLower U captain.AbilityDesc
  if Contains description "switch hitter" && item.BatHand == "S" then true
  else if Contains description "new york yankees" && item.Team == "New York Yankees" then true
  else false

/-- Source: `findEligibleCaptains`. -/
def findEligibleCaptains (U : UnicodeTables) (itemCache : ItemCache)
    (captainsMap : GoMap Captain) (playerName : String) : List Captain :=
  let normalizedName := ToLower U (RemoveAccents U playerName)
  match itemCache.names.get normalizedName with
  | none => []
  | some uuids =>
    uuids.foldl (fun (eligibleCaptains : List Captain) uuid =>
      match itemCache.items.get uuid with
      | some item =>
        captainsMap.values.foldl (fun (eligibleCaptains : List Captain) captain =>
          if isPlayerEligibleForCaptain U item captain then eligibleCaptains ++ [captain]
          else eligibleCaptains) eligibleCaptains
      | none => eligibleCaptains) []

/-! ## Chat handler -/

/-- The shared shape of the item commands: one reply per item, or the
fallback when `contactItems` is nil. -/
def sayItems (contactItems : List Item) (format : Item → String) (notAvailable : String) :
    List String :=
  if !contactItems.isEmpty then contactItems.map format else [notAvailable]

/-- The text of a `!price` reply. -/
def priceText (item : Listing) : String :=
  "[PRICE] " ++ item.Item.Name ++ " (" ++ toString item.Item.Ovr ++ ") | " ++ item.Item.Team
    ++ " " ++ item.Item.Rarity ++ " | Buy now: " ++ toString item.BestSellPrice
    ++ " | Sell now: " ++ toString item.BestBuyPrice ++ "\n"

/-- The text of a reply `[TAG] name (ovr) | rest`. -/
def statText (tag : String) (item : Item) (rest : String) : String :=
  "[" ++ tag ++ "] " ++ item.Name ++ " (" ++ toString item.Ovr ++ ") | " ++ rest

/-- The text of a `!theme` reply. -/
def themeText (playerName : String) (captain : Captain) : String :=
  "[THEME] " ++ playerName ++ " is eligible for Captain " ++ captain.Name ++ ": "
    ++ captain.AbilityDesc

/-- Source: the function passed to `c.OnPrivateMessage` in `main`. The
result lists the texts given to `c.Say(m.Channel, ...)`, in order. -/
def OnPrivateMessage (U : UnicodeTables) (listings : GoMap Listing) (itemCache : ItemCache)
    (captainsMap : GoMap Captain) (message : String) : List String :=
  if startsWith message "!price " then
    let playerName := trimStart message "!price "
    let cards := findCard U listings playerName
    if Contains playerName " " then
      cards.map priceText ++ (if cards.length = 0 then ["Player Card not found"] else [])
    else []
  else if startsWith message "!contact " then
    let playerName := trimStart message "!contact "
    sayItems (getPlayerContacts U itemCache playerName)
      (fun item => statText "CONTACT" item ("Contact vs Left: " ++ toString item.ContactLeft
        ++ " | Contact vs Right: " ++ toString item.ContactRight))
      "Contact information not available."
  else if startsWith message "!hitsper9 " then
    let playerName := trimStart message "!hitsper9 "
    sayItems (getPlayerContacts U itemCache playerName)
      (fun item => statText "HITS PER 9" item ("Hits per 9: " ++ toString item.HitsPer9))
      "Hits per 9 information not available."
  else if startsWith message "!walksper9 " then
    let playerName := trimStart message "!walksper9 "
    sayItems (getPlayerContacts U itemCache playerName)
      (fun item => statText "WALKS PER 9" item ("Walks per 9: " ++ toString item.WalksPer9))
      "Walks per 9 information not available."
  else if startsWith message "!power " then
    let playerName := trimStart message "!power "
    sayItems (getPlayerContacts U itemCache playerName)
      (fun item => statText "POWER" item ("Power vs Left: " ++ toString item.PowerLeft
        ++ " | Power vs Right: " ++ toString item.PowerRight))
      "Power information not available."
  else if startsWith message "!speed " then
    let playerName := trimStart message "!speed "
    sayItems (getPlayerContacts U itemCache playerName)
      (fun item => statText "SPEED" item ("Speed: " ++ toString item.Speed))
      "Speed information not available."
  else if startsWith message "!vision " then
    let playerName := trimStart message "!vision "
    sayItems (getPlayerContacts U itemCache playerName)
      (fun item => statText "VISION" item ("Vision: " ++ toString item.Vision))
      "Vision information not available."
  else if startsWith message "!hittingclutch " then
    let playerName := trimStart message "!clutch "
    sayItems (getPlayerContacts U itemCache playerName)
      (fun item => statText "CLUTCH" item ("Clutch: " ++ toString item.Clutch))
      "Clutch information not available."
  else if startsWith message "!pitchingclutch " then
    let playerName := trimStart message "!pitchingclutch "
    sayItems (getPlayerContacts U itemCache playerName)
      (fun item => statText "PITCHING CLUTCH" item
        ("Pitching Clutch: " ++ toString item.PitchingClutch))
      "Pitching Clutch information not available."
  else if startsWith message "!fielding " then
    let playerName := trimStart message "!fielding "
    sayItems (getPlayerContacts U itemCache playerName)
      (fun item => statText "FIELDING" item ("Fielding: " ++ toString item.Fielding))
      "Fielding information not available."
  else if startsWith message "!arm " then
    let playerName := trimStart message "!arm "
    sayItems (getPlayerContacts U itemCache playerName)
      (fun item => statText "ARM" item ("Arm: " ++ toString item.Arm))
      "Arm information not available."
  else if startsWith message "!armaccuracy " then
    let playerName := trimStart message "!armaccuracy "
    sayItems (getPlayerContacts U itemCache playerName)
      (fun item => statText "ARM ACCURACY" item ("Arm Accuracy: " ++ toString item.ArmAccuracy))
      "Arm Accuracy information not available."
  else if startsWith message "!reaction " then
    let playerName := trimStart message "!reaction "
    sayItems (getPlayerContacts U itemCache playerName)
      (fun item => statText "REACTION" item ("Reaction: " ++ toString item.Reaction))
      "Reaction information not available."
  else if startsWith message "!strikeoutsper9 " then
    let playerName := trimStart message "!strikeoutsper9 "
    sayItems (getPlayerContacts U itemCache playerName)
      (fun item => statText "STRIKEOUTS PER 9" item
        ("Strikeouts per 9: " ++ toString item.StrikeoutsPer9))
      "Strikeouts per 9 information not available."
  else if startsWith message "!theme " then
    let playerName := trimStart message "!theme "
    let eligibleCaptains := findEligibleCaptains U itemCache captainsMap playerName
    if eligibleCaptains.length > 0 then eligibleCaptains.map (themeText playerName)
    else ["No matching themes found for the player."]
  else []

/-! ## A fragment of the Unicode character data

The entries of the Unicode Character Database for the ASCII letters,
U+00C9, U+00E9, U+017F, U+0301, U+FE0F, U+302E and U+1B44, used to evaluate
the program on concrete names. Every other rune is left a caseless starter
without decomposition. -/

/-- Lowercase mappings of the fragment. -/
def lowerPairs : List (Char × Char) :=
  [('A', 'a'), ('B', 'b'), ('C', 'c'), ('D', 'd'), ('E', 'e'), ('F', 'f'), ('G', 'g'),
   ('H', 'h'), ('I', 'i'), ('J', 'j'), ('K', 'k'), ('L', 'l'), ('M', 'm'), ('N', 'n'),
   ('O', 'o'), ('P', 'p'), ('Q', 'q'), ('R', 'r'), ('S', 's'), ('T', 't'), ('U', 'u'),
   ('V', 'v'), ('W', 'w'), ('X', 'x'), ('Y', 'y'), ('Z', 'z'), ('\u00c9', '\u00e9')]

/-- Unicode data restricted to the fragment. -/
def ucdFragment : UnicodeTables where
  decomp c :=
    if c = '\u00e9' then ['e', '\u0301']
    else if c = '\u00c9' then ['E', '\u0301']
    else [c]
  ccc c :=
    if c = '\u0301' then 230
    else if c = '\u302e' then 224
    else if c = '\u1b44' then 9
    else 0
  isMn c := c = '\u0301' || c = '\ufe0f'
  lower c := (lowerPairs.lookup c).getD c
  fold c := if c = '\u017f' then 's' else (lowerPairs.lookup c).getD c

/-- Two tables agree on the runes of `cs` in everything the normalizer
consults. -/
def UnicodeTables.AgreesOn (U V : UnicodeTables) (cs : List Char) : Prop :=
  ∀ c ∈ cs, U.decomp c = V.decomp c ∧ U.ccc c = V.ccc c ∧ U.isMn c = V.isMn c ∧
    U.lower c = V.lower c

/-- Properties of the Unicode data on which idempotence of the normalizer
rests: decompositions are full, and lowercasing a starter that is neither a
mark nor decomposable yields such a starter again, fixed by lowercasing. -/
structure UnicodeTables.Coherent (U : UnicodeTables) : Prop where
  decomp_full : ∀ c, ∀ d ∈ U.decomp c, U.decomp d = [d]
  lower_starter : ∀ c, U.isMn c = false → U.decomp c = [c] → U.ccc c = 0 →
    U.isMn (U.lower c) = false ∧ U.decomp (U.lower c) = [U.lower c] ∧
      U.ccc (U.lower c) = 0 ∧ U.lower (U.lower c) = U.lower c

/-! ## Vocabulary of the statements -/

/-- A source that serves the pages of `pages`: the request for page `i + 1`
is answered with `page = i + 1`, `total_pages = pages.length` and the
listings of the page. -/
def ServesListings (src : Int → ListingFetch) (pages : List (List Listing)) : Prop :=
  ∀ (i : Nat) (recs : List Listing), pages[i]? = some recs →
    ∃ r, src ((i : Int) + 1) = ListingFetch.ok r ∧ r.Page = (i : Int) + 1 ∧
      r.TotalPages = (pages.length : Int) ∧ r.Listings = recs

/-- A source that serves the pages of `pages`: the request for page `i + 1`
is answered with an object whose `page` is `i + 1`, whose `total_pages` is
`pages.length` and whose `items` are the records of the page. -/
def ServesItems (src : Int → Option (List (String × JSON))) (pages : List (List JSON)) :
    Prop :=
  ∀ (i : Nat) (recs : List JSON), pages[i]? = some recs →
    ∃ itemResult, src ((i : Int) + 1) = some itemResult ∧
      itemResult.lookup "page" = some (JSON.num (((i : Int) + 1 : Int) : Rat)) ∧
      itemResult.lookup "total_pages" = some (JSON.num ((pages.length : Int) : Rat)) ∧
      itemResult.lookup "items" = some (JSON.arr recs)

/-- The cache obtained by storing a list of Items, in order, into empty
maps. -/
def storedCache (U : UnicodeTables) (its : List Item) : ItemCache :=
  { items := (its.foldl (storeItem U) { tempItems := [], tempNames := [] }).tempItems
    names := (its.foldl (storeItem U) { tempItems := [], tempNames := [] }).tempNames }

/-- The identity of a catalog record: its `uuid` when that is a string. -/
def recordUUID : JSON → Option String
  | JSON.obj item => asString (item.lookup "uuid")
  | _ => none

/-- A catalog record with a string `uuid`, a string `name` and a numeric
`ovr`. -/
def IsItemRecord (r : JSON) : Prop :=
  ∃ item uuid name ovr, r = JSON.obj item ∧ item.lookup "uuid" = some (JSON.str uuid) ∧
    item.lookup "name" = some (JSON.str name) ∧ item.lookup "ovr" = some (JSON.num ovr)

/-- The numeric attributes of a catalog record other than `ovr`: the JSON
key and the Item field it is copied to. -/
def numericFields : List (String × (Item → Int)) :=
  [("contact_left", Item.ContactLeft), ("contact_right", Item.ContactRight),
   ("hits_per_bf", Item.HitsPer9), ("bb_per_bf", Item.WalksPer9),
   ("power_left", Item.PowerLeft), ("power_right", Item.PowerRight),
   ("speed", Item.Speed), ("plate_vision", Item.Vision),
   ("batting_clutch", Item.Clutch), ("pitching_clutch", Item.PitchingClutch),
   ("fielding_ability", Item.Fielding), ("arm_strength", Item.Arm),
   ("arm_accuracy", Item.ArmAccuracy), ("reaction_time", Item.Reaction),
   ("k_per_bf", Item.StrikeoutsPer9)]

/-- An integer that fits Go's 64-bit `int`. -/
def InIntRange (z : Int) : Prop :=
  -2 ^ 63 ≤ z ∧ z < 2 ^ 63

/-- The Item `it` carries the uuid and the name of the record `item`, its
`Ovr` is the record's ovr truncated to an integer, and each of the fifteen
other numeric fields is 0 when the record lacks the key and the record's
value truncated to an integer when the key holds a number; a truncated value
is asserted only when it fits Go's `int`. -/
def BuiltFrom (item : List (String × JSON)) (uuid name : String) (ovr : Rat) (it : Item) :
    Prop :=
  it.UUID = uuid ∧ it.Name = name ∧ (InIntRange (truncRat ovr) → it.Ovr = truncRat ovr) ∧
    ∀ f ∈ numericFields,
      (item.lookup f.1 = none → f.2 it = 0) ∧
      (∀ x, item.lookup f.1 = some (JSON.num x) → InIntRange (truncRat x) →
        f.2 it = truncRat x)

/-- The first position at which both lists have a rune and the runes
differ. -/
def clash : List Char → List Char → Bool
  | a :: q, b :: p => if a = b then clash q p else true
  | _, _ => false

/-- The verbs whose handler looks the argument up with `getPlayerContacts`
after trimming its own prefix. -/
def itemVerbs : List String :=
  ["contact", "hitsper9", "walksper9", "power", "speed", "vision", "pitchingclutch",
   "fielding", "arm", "armaccuracy", "reaction", "strikeoutsper9"]

/-! ## Sources and data used as concrete inputs -/

/-- A listing whose item name is spelled with the long s (U+017F). -/
def longSListing : Listing :=
  { ListingName := "Jo\u017fe", BestSellPrice := 100, BestBuyPrice := 90,
    Item := { Item.zero with UUID := "u1", Name := "Jo\u017fe" } }

/-- A source that serves the given pages of catalog records and fails on
every other page number. -/
def pagedItems (pages : List (List JSON)) : Int → Option (List (String × JSON)) :=
  fun p =>
    if 1 ≤ p then
      (pages[(p - 1).toNat]?).map (fun recs =>
        [("page", JSON.num (p : Rat)), ("total_pages", JSON.num ((pages.length : Int) : Rat)),
         ("items", JSON.arr recs)])
    else none

/-- A source that serves the given pages of listings and fails on every
other page number. -/
def pagedListings (pages : List (List Listing)) : Int → ListingFetch :=
  fun p =>
    if 1 ≤ p then
      match pages[(p - 1).toNat]? with
      | some recs =>
        ListingFetch.ok
          { Page := p, PerPage := 25, TotalPages := (pages.length : Int), Listings := recs }
      | none => ListingFetch.requestError
    else ListingFetch.requestError

/-- A catalog record with the three fields `loadItems` requires. -/
def playerRecord (uuid name : String) (ovr : Rat) (more : List (String × JSON)) : JSON :=
  JSON.obj ([("uuid", JSON.str uuid), ("name", JSON.str name), ("ovr", JSON.num ovr)] ++ more)

/-- Two pages: two cards named Mike Trout with different uuids around a card
of another player. -/
def troutPages : List (List JSON) :=
  [[playerRecord "u1" "Mike Trout" 99 [("speed", JSON.num 80)],
    playerRecord "u2" "Mookie Betts" 97 []],
   [playerRecord "u3" "Mike Trout" 85 []]]

/-- Two pages of catalog records; the stadium has no `ovr`. -/
def stadiumPages : List (List JSON) :=
  [[playerRecord "u1" "Mike Trout" 99 []],
   [JSON.obj [("uuid", JSON.str "s1"), ("name", JSON.str "Dodger Stadium")]]]

/-- Three pages of listings; the card `u1` is listed on pages 1 and 3. -/
def listingPages : List (List Listing) :=
  [[{ ListingName := "Mike Trout", BestSellPrice := 500, BestBuyPrice := 450,
      Item := { Item.zero with UUID := "u1", Name := "Mike Trout" } }],
   [{ ListingName := "Mookie Betts", BestSellPrice := 300, BestBuyPrice := 280,
      Item := { Item.zero with UUID := "u2", Name := "Mookie Betts" } }],
   [{ ListingName := "Mike Trout", BestSellPrice := 520, BestBuyPrice := 470,
      Item := { Item.zero with UUID := "u1", Name := "Mike Trout" } }]]

/-- A record of a player card that has a uuid, a name and numeric attributes
but no `ovr`. -/
def noOvrRecord : JSON :=
  JSON.obj [("uuid", JSON.str "u7"), ("name", JSON.str "Shohei Ohtani"),
    ("speed", JSON.num 90), ("power_left", JSON.num 95)]

/-- The fields of a card with a fractional speed and a negative fractional
reaction time; the other attributes are absent. -/
def fractionItem : List (String × JSON) :=
  [("uuid", JSON.str "u1"), ("name", JSON.str "Mike Trout"), ("ovr", JSON.num 99),
   ("speed", JSON.num (mkRat 161 2)), ("reaction_time", JSON.num (mkRat (-7) 2))]

/-- Two pages of catalog records, the first holding the card of
`fractionItem`. -/
def fractionPages : List (List JSON) :=
  [[JSON.obj fractionItem], [playerRecord "u2" "Mookie Betts" 97 []]]

/-- A listings source whose every response has a `page` of the wrong JSON
type and `total_pages` 3: `Decode` returns an error after leaving
`result.Page` at 0 and setting `result.TotalPages` to 3. -/
def pageFieldMistyped : Int → ListingFetch :=
  fun _ => ListingFetch.decodeError { Page := 0, PerPage := 0, TotalPages := 3, Listings := [] }

/-- A source whose first page is served, announcing two pages, and whose
second page fails. -/
def secondPageFails : Int → Option (List (String × JSON)) :=
  fun p =>
    if p = 1 then
      some [("page", JSON.num 1), ("total_pages", JSON.num 2),
        ("items", JSON.arr [playerRecord "u1" "Mike Trout" 99 []])]
    else none

/-- A page with one card whose batting hand is switch. -/
def switchPages : List (List JSON) :=
  [[playerRecord "u1" "Chipper Jones" 99
      [("bat_hand", JSON.str "S"), ("team", JSON.str "Atlanta Braves")]]]

/-- A captain whose ability is about switch hitters. -/
def switchCaptain : Captain :=
  { UUID := "c1", Name := "Captain Switch", DisplayPosition := "1B", Team := "Free Agents",
    Ovr := 90, AbilityName := "Both Sides",
    AbilityDesc := "Boosts every Switch Hitter in the lineup", Boosts := [] }

/-- A cache holding one card of Mike Trout. -/
def troutCache : ItemCache :=
  storedCache ucdFragment
    [{ Item.zero with UUID := "u1", Name := "Mike Trout", Ovr := 99, Clutch := 120 }]

/-- A listing of the card of Mike Trout. -/
def troutListing : Listing :=
  { ListingName := "Mike Trout", BestSellPrice := 500, BestBuyPrice := 450,
    Item := { Item.zero with UUID := "u1", Name := "Mike Trout", Ovr := 99 } }

/-! ## The normalizer -/

theorem foldl_skip_eq_filter {α : Type} (p : α → Bool) (l : List α) (acc : List α) :
    l.foldl (fun (result : List α) r => if p r then result else result ++ [r]) acc
      = acc ++ l.filter (fun r => !p r) := by
  induction l generalizing acc with
  | nil => simp
  | cons a l ih =>
    simp only [List.foldl_cons, List.filter_cons, ih]
    cases p a <;> simp

theorem foldl_keep_eq_filter {α : Type} (p : α → Bool) (l : List α) (acc : List α) :
    l.foldl (fun (result : List α) r => if p r then result ++ [r] else result) acc
      = acc ++ l.filter p := by
  induction l generalizing acc with
  | nil => simp
  | cons a l ih =>
    simp only [List.foldl_cons, List.filter_cons, ih]
    cases p a <;> simp

theorem normalize_data (U : UnicodeTables) (x : String) :
    (normalize U x).data
      = ((nfdRunes U x.data).filter (fun r => !U.isMn r)).map U.lower := by
  simp [normalize, ToLower, RemoveAccents, NFD, foldl_skip_eq_filter]

theorem mem_insertOrdered (U : UnicodeTables) (c x : Char) (buf : List Char) :
    x ∈ insertOrdered U c buf ↔ x = c ∨ x ∈ buf := by
  induction buf with
  | nil => simp [insertOrdered]
  | cons d ds ih =>
    unfold insertOrdered
    split
    · simp only [List.mem_cons, ih]; tauto
    · simp

theorem mem_foldl_insertOrdered (U : UnicodeTables) (x : Char) (l buf : List Char) :
    x ∈ l.foldl (fun buf c => insertOrdered U c buf) buf ↔ x ∈ l ∨ x ∈ buf := by
  induction l generalizing buf with
  | nil => simp
  | cons a l ih =>
    simp only [List.foldl_cons, ih, mem_insertOrdered, List.mem_cons]; tauto

theorem mem_nfdRunes (U : UnicodeTables) (x : Char) (rs : List Char) :
    x ∈ nfdRunes U rs ↔ ∃ r ∈ rs, x ∈ U.decomp r := by
  simp [nfdRunes, mem_foldl_insertOrdered, List.mem_flatMap]

theorem insertOrdered_congr (U V : UnicodeTables) (c : Char) (buf : List Char)
    (hc : U.ccc c = V.ccc c) (hbuf : ∀ d ∈ buf, U.ccc d = V.ccc d) :
    insertOrdered U c buf = insertOrdered V c buf := by
  induction buf with
  | nil => rfl
  | cons d ds ih =>
    have hd : U.ccc d = V.ccc d := hbuf d (List.mem_cons_self _ _)
    have hds : ∀ e ∈ ds, U.ccc e = V.ccc e := fun e he => hbuf e (List.mem_cons_of_mem _ he)
    simp only [insertOrdered, hc, hd, ih hds]

theorem foldl_insertOrdered_congr (U V : UnicodeTables) (l buf : List Char)
    (hl : ∀ d ∈ l, U.ccc d = V.ccc d) (hbuf : ∀ d ∈ buf, U.ccc d = V.ccc d) :
    l.foldl (fun buf c => insertOrdered U c buf) buf
      = l.foldl (fun buf c => insertOrdered V c buf) buf := by
  induction l generalizing buf with
  | nil => rfl
  | cons a l ih =>
    have ha : U.ccc a = V.ccc a := hl a (List.mem_cons_self _ _)
    simp only [List.foldl_cons, insertOrdered_congr U V a buf ha hbuf]
    apply ih _ (fun d hd => hl d (List.mem_cons_of_mem _ hd))
    intro d hd
    rcases (mem_insertOrdered V a d buf).1 hd with h | h
    · rw [h]; exact ha
    · exact hbuf d h

theorem flatMap_decomp_congr (U V : UnicodeTables) (rs : List Char)
    (h : ∀ r ∈ rs, U.decomp r = V.decomp r) : rs.flatMap U.decomp = rs.flatMap V.decomp := by
  induction rs with
  | nil => rfl
  | cons a l ih =>
    simp only [List.flatMap_cons, h a (List.mem_cons_self _ _)]
    rw [ih (fun r hr => h r (List.mem_cons_of_mem _ hr))]

/-- The normalizer only consults the tables on the runes of its input and of
their decompositions. -/
theorem normalize_congr (U V : UnicodeTables) (cs : List Char) (x : String)
    (h : U.AgreesOn V cs) (hx : ∀ c ∈ x.data, c ∈ cs)
    (hcs : ∀ c ∈ cs, ∀ d ∈ V.decomp c, d ∈ cs) : normalize U x = normalize V x := by
  have hflat : x.data.flatMap U.decomp = x.data.flatMap V.decomp :=
    flatMap_decomp_congr U V _ (fun r hr => (h r (hx r hr)).1)
  have hmem : ∀ d ∈ x.data.flatMap V.decomp, d ∈ cs := by
    intro d hd
    rcases List.mem_flatMap.1 hd with ⟨r, hr, hdr⟩
    exact hcs r (hx r hr) d hdr
  have hnfd : nfdRunes U x.data = nfdRunes V x.data := by
    unfold nfdRunes
    rw [hflat, foldl_insertOrdered_congr U V _ [] (fun d hd => (h d (hmem d hd)).2.1)
      (fun d hd => absurd hd (List.not_mem_nil d))]
  have hmem2 : ∀ d ∈ nfdRunes V x.data, d ∈ cs := by
    intro d hd
    rcases (mem_nfdRunes V d x.data).1 hd with ⟨r, hr, hdr⟩
    exact hcs r (hx r hr) d hdr
  have hfil : (nfdRunes V x.data).filter (fun r => !U.isMn r)
      = (nfdRunes V x.data).filter (fun r => !V.isMn r) := by
    apply List.filter_congr
    intro d hd
    rw [(h d (hmem2 d hd)).2.2.1]
  apply String.ext
  rw [normalize_data, normalize_data, hnfd, hfil]
  apply List.map_congr_left
  intro d hd
  exact (h d (hmem2 d (List.mem_of_mem_filter hd))).2.2.2

/-- C4. For any Unicode data that has the entries of the Unicode Character
Database for the runes J, o, s, e, O, S, E, U+00E9, U+00C9 and U+0301, the
key `strings.ToLower(RemoveAccents(x))` is "jose" for "Jose" and for the
accented name in mixed case and in upper case, with the accented letter
either precomposed (U+00E9, U+00C9) or written as the letter followed by
U+0301. -/
theorem normalize_jose (U : UnicodeTables)
    (h : U.AgreesOn ucdFragment ['J', 'o', 's', 'e', 'O', 'S', 'E', '\u00e9', '\u00c9', '\u0301']) :
    normalize U "Jos\u00e9" = "jose" ∧ normalize U "Jose\u0301" = "jose" ∧
    normalize U "Jose" = "jose" ∧ normalize U "JOS\u00c9" = "jose" ∧
    normalize U "JOSE\u0301" = "jose" := by
  have hcs : ∀ c ∈ ['J', 'o', 's', 'e', 'O', 'S', 'E', '\u00e9', '\u00c9', '\u0301'],
      ∀ d ∈ ucdFragment.decomp c,
        d ∈ ['J', 'o', 's', 'e', 'O', 'S', 'E', '\u00e9', '\u00c9', '\u0301'] := by decide
  refine ⟨?_, ?_, ?_, ?_, ?_⟩
  · rw [normalize_congr U ucdFragment _ _ h (by decide) hcs]; decide
  · rw [normalize_congr U ucdFragment _ _ h (by decide) hcs]; decide
  · rw [normalize_congr U ucdFragment _ _ h (by decide) hcs]; decide
  · rw [normalize_congr U ucdFragment _ _ h (by decide) hcs]; decide
  · rw [normalize_congr U ucdFragment _ _ h (by decide) hcs]; decide

/-- Witness of C4: the fragment itself. -/
theorem normalize_jose_witness :
    ucdFragment.AgreesOn ucdFragment
        ['J', 'o', 's', 'e', 'O', 'S', 'E', '\u00e9', '\u00c9', '\u0301'] ∧
      normalize ucdFragment "Jos\u00e9" = "jose" ∧
      normalize ucdFragment "Jose\u0301" = "jose" ∧
      normalize ucdFragment "Jose" = "jose" ∧
      normalize ucdFragment "JOS\u00c9" = "jose" ∧
      normalize ucdFragment "JOSE\u0301" = "jose" :=
  ⟨fun _ _ => ⟨rfl, rfl, rfl, rfl⟩, normalize_jose ucdFragment (fun _ _ => ⟨rfl, rfl, rfl, rfl⟩)⟩

theorem insertOrdered_starter (U : UnicodeTables) (c : Char) (buf : List Char)
    (hc : U.ccc c = 0) : insertOrdered U c buf = c :: buf := by
  cases buf with
  | nil => rfl
  | cons d ds => simp [insertOrdered, hc]

theorem foldl_insertOrdered_starters (U : UnicodeTables) (l buf : List Char)
    (hl : ∀ c ∈ l, U.ccc c = 0) :
    l.foldl (fun buf c => insertOrdered U c buf) buf = l.reverse ++ buf := by
  induction l generalizing buf with
  | nil => rfl
  | cons a l ih =>
    simp only [List.foldl_cons, insertOrdered_starter U a buf (hl a (List.mem_cons_self _ _))]
    rw [ih _ (fun c hc => hl c (List.mem_cons_of_mem _ hc))]
    simp

theorem flatMap_decomp_fixed (U : UnicodeTables) (l : List Char)
    (hl : ∀ c ∈ l, U.decomp c = [c]) : l.flatMap U.decomp = l := by
  induction l with
  | nil => rfl
  | cons a l ih =>
    simp only [List.flatMap_cons, hl a (List.mem_cons_self _ _)]
    rw [ih (fun c hc => hl c (List.mem_cons_of_mem _ hc))]
    rfl

/-- Text made of undecomposable starters is left unchanged by the canonical
decomposition. -/
theorem nfdRunes_fixed (U : UnicodeTables) (l : List Char)
    (hd : ∀ c ∈ l, U.decomp c = [c]) (hc : ∀ c ∈ l, U.ccc c = 0) : nfdRunes U l = l := by
  unfold nfdRunes
  rw [flatMap_decomp_fixed U l hd, foldl_insertOrdered_starters U l [] hc]
  simp

theorem lookup_some_mem {α β : Type} [BEq α] [LawfulBEq α] (k : α) (v : β)
    (l : List (α × β)) (h : l.lookup k = some v) : (k, v) ∈ l := by
  induction l with
  | nil => simp at h
  | cons p l ih =>
    obtain ⟨a, b⟩ := p
    by_cases hk : k = a
    · subst hk
      simp [List.lookup] at h
      simp [h]
    · have hne : (k == a) = false := by simpa using hk
      simp only [List.lookup, hne] at h
      exact List.mem_cons_of_mem _ (ih h)

theorem ucdFragment_coherent : ucdFragment.Coherent := by
  constructor
  · intro c d hd
    by_cases h1 : c = '\u00e9'
    · subst h1; revert d; decide
    · by_cases h2 : c = '\u00c9'
      · subst h2; revert d; decide
      · have hdc : d = c := by simpa [ucdFragment, h1, h2] using hd
        subst hdc
        simp [ucdFragment, h1, h2]
  · intro c hmn hdec hccc
    cases hl : lowerPairs.lookup c with
    | none =>
      have hlow : ucdFragment.lower c = c := by simp [ucdFragment, hl]
      rw [hlow]
      exact ⟨hmn, hdec, hccc, hlow⟩
    | some d =>
      have hlow : ucdFragment.lower c = d := by simp [ucdFragment, hl]
      have hall : ∀ p ∈ lowerPairs, ucdFragment.decomp p.1 = [p.1] →
          ucdFragment.isMn p.2 = false ∧ ucdFragment.decomp p.2 = [p.2] ∧
            ucdFragment.ccc p.2 = 0 ∧ ucdFragment.lower p.2 = p.2 := by decide
      rw [hlow]
      exact hall (c, d) (lookup_some_mem c d lowerPairs hl) hdec

/-- C5, as amended. For Unicode data in which decompositions are full and
lowercasing keeps undecomposable non-mark starters such, and for every
string whose canonical decomposition contains no rune of non-zero combining
class other than nonspacing marks, normalizing the normalized key gives the
same key. -/
theorem normalize_idempotent (U : UnicodeTables) (hU : U.Coherent) (x : String)
    (hx : ∀ c ∈ (NFD U x).data, U.isMn c = false → U.ccc c = 0) :
    normalize U (normalize U x) = normalize U x := by
  have key : ∀ d ∈ (normalize U x).data,
      U.isMn d = false ∧ U.decomp d = [d] ∧ U.ccc d = 0 ∧ U.lower d = d := by
    intro d hd
    rw [normalize_data] at hd
    rcases List.mem_map.1 hd with ⟨c, hc, rfl⟩
    rcases List.mem_filter.1 hc with ⟨hcn, hcm⟩
    have hmn : U.isMn c = false := by simpa using hcm
    rcases (mem_nfdRunes U c x.data).1 hcn with ⟨r, _, hcr⟩
    exact hU.lower_starter c hmn (hU.decomp_full r c hcr) (hx c hcn hmn)
  apply String.ext
  rw [normalize_data U (normalize U x),
    nfdRunes_fixed U _ (fun c hc => (key c hc).2.1) (fun c hc => (key c hc).2.2.1)]
  have hfil : (normalize U x).data.filter (fun r => !U.isMn r) = (normalize U x).data := by
    apply List.filter_eq_self.2
    intro c hc
    simp [(key c hc).1]
  rw [hfil]
  conv_rhs => rw [← List.map_id (normalize U x).data]
  apply List.map_congr_left
  intro c hc
  exact (key c hc).2.2.2

/-- Witness of C5 as amended: the accented name under the fragment. -/
theorem normalize_idempotent_witness :
    normalize ucdFragment (normalize ucdFragment "Jos\u00e9")
      = normalize ucdFragment "Jos\u00e9" :=
  normalize_idempotent ucdFragment ucdFragment_coherent "Jos\u00e9" (by decide)

/-- C5 as stated fails. U+302E (class 224) and U+1B44 (class 9) are spacing
marks and U+FE0F is a nonspacing mark of class 0: the first pass removes
U+FE0F from between them and the second pass reorders the two that remain. -/
theorem normalize_not_idempotent :
    normalize ucdFragment "\u302e\ufe0f\u1b44" = "\u302e\u1b44" ∧
      normalize ucdFragment (normalize ucdFragment "\u302e\ufe0f\u1b44") = "\u1b44\u302e" ∧
      normalize ucdFragment (normalize ucdFragment "\u302e\ufe0f\u1b44")
        ≠ normalize ucdFragment "\u302e\ufe0f\u1b44" := by
  decide

/-! ## Maps -/

theorem GoMap.get_nil {V : Type} (k : String) : GoMap.get ([] : GoMap V) k = none := rfl

theorem GoMap.get_set {V : Type} (m : GoMap V) (k : String) (v : V) (k1 : String) :
    (m.set k v).get k1 = if k1 = k then some v else m.get k1 := by
  induction m with
  | nil =>
    by_cases h : k1 = k
    · simp [GoMap.set, GoMap.get, List.lookup, h]
    · have hne : (k1 == k) = false := by simpa using h
      simp [GoMap.set, GoMap.get, List.lookup, h, hne]
  | cons e rest ih =>
    obtain ⟨a, b⟩ := e
    simp only [GoMap.get] at ih
    by_cases ha : a = k
    · subst ha
      by_cases h : k1 = a
      · simp [GoMap.set, GoMap.get, List.lookup, h]
      · have hne : (k1 == a) = false := by simpa using h
        simp [GoMap.set, GoMap.get, List.lookup, h, hne]
    · by_cases h1 : k1 = a
      · subst h1
        have hk : ¬ k1 = k := ha
        simp [GoMap.set, GoMap.get, List.lookup, ha, hk]
      · have hne : (k1 == a) = false := by simpa using h1
        simp [GoMap.set, GoMap.get, List.lookup, ha, hne, ih]

theorem GoMap.mem_set {V : Type} (m : GoMap V) (k : String) (v : V) (e : String × V)
    (he : e ∈ m.set k v) : e = (k, v) ∨ e ∈ m := by
  induction m with
  | nil => simpa [GoMap.set] using he
  | cons a rest ih =>
    obtain ⟨a1, a2⟩ := a
    by_cases ha : a1 = k
    · simp only [GoMap.set, ha, if_true, List.mem_cons] at he
      rcases he with h | h
      · exact Or.inl h
      · exact Or.inr (List.mem_cons_of_mem _ h)
    · simp only [GoMap.set, ha, if_false, List.mem_cons] at he
      rcases he with h | h
      · exact Or.inr (h ▸ List.mem_cons_self _ _)
      · rcases ih h with h1 | h1
        · exact Or.inl h1
        · exact Or.inr (List.mem_cons_of_mem _ h1)

/-- Writing the records of a list into a map under their keys: the map
holds, for each key, the last record of the list with that key, and what it
held before for the other keys. -/
theorem GoMap.get_foldl_set {V : Type} (key : V → String) (l : List V) (m : GoMap V)
    (k : String) :
    (l.foldl (fun m x => m.set (key x) x) m).get k
      = ((l.reverse.find? (fun x => key x == k)).or (m.get k)) := by
  induction l generalizing m with
  | nil => simp
  | cons a l ih =>
    rw [List.foldl_cons, ih, GoMap.get_set, List.reverse_cons, List.find?_append]
    by_cases h : k = key a
    · subst h
      cases List.find? (fun x => key x == key a) l.reverse <;> simp
    · have hne : (key a == k) = false := by
        simpa using fun h1 : key a = k => h h1.symm
      cases List.find? (fun x => key x == k) l.reverse <;> simp [h, hne]

theorem wrap64_of_range (x : Int) (h0 : 0 ≤ x) (h1 : x < 2 ^ 63) : wrap64 x = x := by
  unfold wrap64
  norm_num at h1 ⊢
  omega

/-! ## Lookup of listings -/

theorem findCard_spec (U : UnicodeTables) (listings : GoMap Listing) (playerName : String) :
    findCard U listings playerName
      = listings.values.filter (fun listing =>
          EqualFold U (normalize U listing.Item.Name) (normalize U playerName)) := by
  simp [findCard, normalize, foldl_keep_eq_filter]

/-- C2 as stated fails. The normalized name of the listing keeps the long s
and differs from the normalized query "jose", yet `strings.EqualFold`
identifies the two and `findCard` returns the listing. -/
theorem findCard_not_exact :
    normalize ucdFragment longSListing.Item.Name ≠ normalize ucdFragment "jose" ∧
      findCard ucdFragment [("u1", longSListing)] "jose" = [longSListing] :=
  ⟨by decide, rfl⟩

/-- C2, as amended. `findCard` returns, each once and in iteration order,
all and only the listings of the snapshot whose normalized item name is
equal to the normalized query under simple case folding
(`strings.EqualFold`); every listing whose normalized name equals the
normalized query is among them; the result is empty when no listing
matches. -/
theorem findCard_equalFold (U : UnicodeTables) (listings : GoMap Listing)
    (playerName : String) :
    findCard U listings playerName
        = listings.values.filter (fun listing =>
            EqualFold U (normalize U listing.Item.Name) (normalize U playerName)) ∧
      (∀ listing ∈ listings.values,
        normalize U listing.Item.Name = normalize U playerName →
          listing ∈ findCard U listings playerName) ∧
      ((∀ listing ∈ listings.values,
          EqualFold U (normalize U listing.Item.Name) (normalize U playerName) = false) →
        findCard U listings playerName = []) := by
  refine ⟨findCard_spec U listings playerName, ?_, ?_⟩
  · intro listing hmem heq
    rw [findCard_spec, List.mem_filter]
    refine ⟨hmem, ?_⟩
    simp [EqualFold, heq]
  · intro hnone
    rw [findCard_spec, List.filter_eq_nil_iff]
    intro listing hmem
    simp [hnone listing hmem]

/-! ## The listings loader -/

theorem mem_foldl_set {V : Type} (key : V → String) (l : List V) (m : GoMap V)
    (e : String × V) (he : e ∈ l.foldl (fun m x => m.set (key x) x) m) :
    (e.2 ∈ l ∧ e.1 = key e.2) ∨ e ∈ m := by
  induction l generalizing m with
  | nil => exact Or.inr he
  | cons a l ih =>
    rw [List.foldl_cons] at he
    rcases ih _ he with h | h
    · exact Or.inl ⟨List.mem_cons_of_mem _ h.1, h.2⟩
    · rcases GoMap.mem_set m (key a) a e h with h1 | h1
      · subst h1
        exact Or.inl ⟨List.mem_cons_self _ _, rfl⟩
      · exact Or.inr h1

/-- Every entry of the map the loop ends with was in the map it started
with or is a listing of a page that was decoded, under its item's uuid. -/
theorem loadListingsLoop_sound (src : Int → ListingFetch) (fuel : Nat) (p : Int)
    (temp m : GoMap Listing) (h : loadListingsLoop src fuel p temp = Run.done m) :
    ∀ e ∈ m, e ∈ temp ∨
      ∃ q r, src q = ListingFetch.ok r ∧ e.2 ∈ r.Listings ∧ e.1 = e.2.Item.UUID := by
  induction fuel generalizing p temp with
  | zero => simp [loadListingsLoop] at h
  | succ fuel ih =>
    have hmerge : ∀ e ∈ mergeListings (src p) temp, e ∈ temp ∨
        ∃ q r, src q = ListingFetch.ok r ∧ e.2 ∈ r.Listings ∧ e.1 = e.2.Item.UUID := by
      intro e he
      cases hs : src p with
      | requestError => rw [hs] at he; exact Or.inl he
      | decodeError r => rw [hs] at he; exact Or.inl he
      | ok r =>
        rw [hs] at he
        rcases mem_foldl_set (fun l : Listing => l.Item.UUID) r.Listings temp e he with h1 | h1
        · exact Or.inr ⟨p, r, hs, h1.1, h1.2⟩
        · exact Or.inl h1
    simp only [loadListingsLoop] at h
    split at h
    · cases h
      exact hmerge
    · intro e he
      rcases ih _ _ h e he with h1 | h1
      · exact hmerge e h1
      · exact Or.inr h1

/-- When the attempt on page `p` fails and leaves `result.Page` and
`result.TotalPages` at 0, the loop of `loadListings` ends with that attempt
and keeps the map accumulated so far; when this happens on page 1 the load
ends after one request and installs the empty map in place of the previous
snapshot. Whatever the source, an installed map holds only listings of pages
that were decoded. -/
theorem loadListings_failed_attempt (src : Int → ListingFetch) (p : Int)
    (hfail : ∀ r, src p ≠ ListingFetch.ok r)
    (hpage : (src p).result.Page = 0) (htotal : (src p).result.TotalPages = 0) :
    (∀ fuel temp, loadListingsLoop src (fuel + 1) p temp = Run.done temp) ∧
      (p = 1 → ∀ fuel listings, loadListings src (fuel + 1) listings = Run.done []) ∧
      (∀ fuel listings m, loadListings src fuel listings = Run.done m →
        ∀ e ∈ m, ∃ q r, src q = ListingFetch.ok r ∧ e.2 ∈ r.Listings ∧
          e.1 = e.2.Item.UUID) := by
  have hloop : ∀ fuel temp, loadListingsLoop src (fuel + 1) p temp = Run.done temp := by
    intro fuel temp
    have hm : mergeListings (src p) temp = temp := by
      cases hs : src p with
      | requestError => rfl
      | decodeError r => rfl
      | ok r => exact absurd hs (hfail r)
    simp only [loadListingsLoop, hpage, htotal, hm]
    have hw : wrap64 1 = 1 := by decide
    simp [hw]
  refine ⟨hloop, ?_, ?_⟩
  · intro hp fuel listings
    subst hp
    exact hloop fuel []
  · intro fuel listings m hm e he
    rcases loadListingsLoop_sound src fuel 1 [] m hm e he with h | h
    · exact absurd h (List.not_mem_nil e)
    · exact h

/-- A source whose every request fails: the load ends after one request and
installs the empty map. -/
theorem loadListings_failed_attempt_witness :
    loadListings (fun _ => ListingFetch.requestError) 1 [("u1", longSListing)] = Run.done [] :=
  (loadListings_failed_attempt (fun _ => ListingFetch.requestError) 1
    (fun _ h => by cases h) rfl rfl).2.1 rfl 0 [("u1", longSListing)]

theorem loadListingsLoop_pageFieldMistyped (fuel : Nat) (temp : GoMap Listing) :
    loadListingsLoop pageFieldMistyped fuel 1 temp = Run.outOfFuel := by
  induction fuel with
  | zero => rfl
  | succ fuel ih =>
    have hw : wrap64 (0 + 1) = 1 := by decide
    have hgt : ¬ ((1 : Int) > 3) := by decide
    simp only [loadListingsLoop, pageFieldMistyped, ListingFetch.result, mergeListings, hw,
      hgt, if_false]
    exact ih

/-- C9: the code at the failing input. Every response of the source is a
decode failure on page 1: `page` has the wrong JSON type, so `Decode` returns
an error with `result.Page` still 0, and `total_pages` is 3, which `Decode`
has stored. Then `p` is 1 again, `1 > 3` is false, and the loop requests
page 1 again: whatever the bound on the number of requests, `loadListings`
does not return and installs nothing. When the attempt fails before
anything is decoded (the request itself fails), the load does end after the
single attempt and installs the empty map. -/
theorem loadListings_decode_error_never_returns (fuel : Nat) (listings : GoMap Listing) :
    (∀ r, pageFieldMistyped 1 ≠ ListingFetch.ok r) ∧
      (pageFieldMistyped 1).result.Page = 0 ∧ (pageFieldMistyped 1).result.TotalPages = 3 ∧
      loadListings pageFieldMistyped fuel listings = Run.outOfFuel ∧
      loadListings (fun _ => ListingFetch.requestError) (fuel + 1) listings = Run.done [] :=
  ⟨fun _ h => (by cases h), rfl, rfl, loadListingsLoop_pageFieldMistyped fuel [], rfl⟩

theorem loadListingsLoop_pages (src : Int → ListingFetch) (pages : List (List Listing))
    (hsrc : ServesListings src pages) (hn : (pages.length : Int) + 1 < 2 ^ 63) :
    ∀ (rest seen : List (List Listing)), pages = seen ++ rest → rest ≠ [] →
      ∀ (temp : GoMap Listing) (fuel : Nat), rest.length ≤ fuel →
        loadListingsLoop src fuel ((seen.length : Int) + 1) temp
          = Run.done (rest.flatten.foldl (fun m l => m.set l.Item.UUID l) temp) := by
  intro rest
  induction rest with
  | nil => intro seen _ h; exact absurd rfl h
  | cons pg rest ih =>
    intro seen hpages _ temp fuel hfuel
    cases fuel with
    | zero => simp at hfuel
    | succ fuel =>
      have hget : pages[seen.length]? = some pg := by
        rw [hpages, List.getElem?_append_right (le_refl _)]; simp
      obtain ⟨r, hr, hpage, htotal, hlist⟩ := hsrc seen.length pg hget
      have hlen : pages.length = seen.length + (rest.length + 1) := by
        rw [hpages]; simp
      have hw : wrap64 ((seen.length : Int) + 1 + 1) = (seen.length : Int) + 1 + 1 := by
        apply wrap64_of_range
        · omega
        · rw [hlen] at hn; push_cast at hn; omega
      simp only [loadListingsLoop, hr, ListingFetch.result, mergeListings, hpage, htotal,
        hlist, hw]
      cases rest with
      | nil =>
        have : (seen.length : Int) + 1 + 1 > (pages.length : Int) := by
          rw [hlen]; push_cast; simp
        simp [this]
      | cons pg2 rest2 =>
        have hnot : ¬ ((seen.length : Int) + 1 + 1 > (pages.length : Int)) := by
          rw [hlen]; push_cast; simp only [List.length_cons]; push_cast; omega
        simp only [hnot, if_false]
        have := ih (seen ++ [pg]) (by rw [hpages]; simp) (by simp) 
          (pg.foldl (fun m l => m.set l.Item.UUID l) temp) fuel
          (by simp only [List.length_cons] at hfuel ⊢; omega)
        simp only [List.length_append, List.length_singleton, Nat.cast_add, Nat.cast_one] at this
        rw [this]
        simp [List.foldl_append]

/-! ## The items loader -/

/-- The truncation `truncRat` is the floor of a value that is not negative
and the ceiling of a value that is not positive. -/
theorem truncRat_floor_ceil (x : Rat) :
    (0 ≤ x → truncRat x = ⌊x⌋) ∧ (x ≤ 0 → truncRat x = ⌈x⌉) := by
  have hfloor : ∀ y : Rat, 0 ≤ y → truncRat y = ⌊y⌋ := by
    intro y hy
    have hn : 0 ≤ y.num := Rat.num_nonneg.2 hy
    rw [Rat.floor_def, truncRat, Int.tdiv_eq_ediv hn (by positivity)]
  refine ⟨hfloor x, fun hx => ?_⟩
  have hneg : truncRat (-x) = -truncRat x := by
    simp [truncRat, Int.neg_tdiv]
  have h := hfloor (-x) (by linarith)
  rw [hneg, Int.floor_neg] at h
  omega

theorem goInt_of_inIntRange (x : Rat) (h : InIntRange (truncRat x)) :
    goInt x = truncRat x := by
  unfold goInt
  exact if_pos h

theorem goInt_intCast (z : Int) (h0 : 0 ≤ z) (h1 : z < 2 ^ 63) : goInt (z : Rat) = z := by
  have ht : truncRat (z : Rat) = z := by simp [truncRat]
  rw [goInt_of_inIntRange _ (by rw [ht]; exact ⟨by omega, h1⟩), ht]

theorem foldl_processItem (U : UnicodeTables) (recs : List JSON) (t : TempItems) :
    recs.foldl (processItem U) t = (recs.filterMap parseItem).foldl (storeItem U) t := by
  induction recs generalizing t with
  | nil => rfl
  | cons r recs ih =>
    rw [List.foldl_cons, ih, List.filterMap_cons]
    cases h : parseItem r <;> simp [processItem, h]

theorem processPage_items (U : UnicodeTables) (itemResult : List (String × JSON))
    (recs : List JSON) (t : TempItems)
    (h : itemResult.lookup "items" = some (JSON.arr recs)) :
    processPage U itemResult t = (recs.filterMap parseItem).foldl (storeItem U) t := by
  rw [← foldl_processItem]
  simp only [processPage, h]
  split
  · next h0 =>
    have : recs = [] := List.length_eq_zero.1 h0
    subst this
    rfl
  · rfl

theorem loadItemsLoop_pages (U : UnicodeTables) (src : Int → Option (List (String × JSON)))
    (pages : List (List JSON)) (hsrc : ServesItems src pages)
    (hn : (pages.length : Int) + 1 < 2 ^ 63) :
    ∀ (rest seen : List (List JSON)), pages = seen ++ rest → rest ≠ [] →
      ∀ (t : TempItems) (fuel : Nat), rest.length ≤ fuel →
        loadItemsLoop U src fuel ((seen.length : Int) + 1) t
          = Run.done
              { items := ((rest.flatten.filterMap parseItem).foldl (storeItem U) t).tempItems
                names := ((rest.flatten.filterMap parseItem).foldl (storeItem U) t).tempNames } := by
  intro rest
  induction rest with
  | nil => intro seen _ h; exact absurd rfl h
  | cons pg rest ih =>
    intro seen hpages _ t fuel hfuel
    cases fuel with
    | zero => simp at hfuel
    | succ fuel =>
      have hget : pages[seen.length]? = some pg := by
        rw [hpages, List.getElem?_append_right (le_refl _)]; simp
      obtain ⟨itemResult, hr, hpage, htotal, hitems⟩ := hsrc seen.length pg hget
      have hlen : pages.length = seen.length + (rest.length + 1) := by
        rw [hpages]; simp
      have hw : wrap64 ((seen.length : Int) + 1 + 1) = (seen.length : Int) + 1 + 1 := by
        apply wrap64_of_range
        · omega
        · rw [hlen] at hn; push_cast at hn; omega
      have hgp : goInt ((((seen.length : Int) + 1 : Int)) : Rat) = (seen.length : Int) + 1 :=
        goInt_intCast _ (by omega) (by rw [hlen] at hn; push_cast at hn; omega)
      have hgt : goInt (((pages.length : Int)) : Rat) = (pages.length : Int) :=
        goInt_intCast _ (by omega) (by omega)
      simp only [loadItemsLoop, hr, Option.getD_some, hpage, htotal, hgp, hgt, hw,
        processPage_items U itemResult pg t hitems]
      cases rest with
      | nil =>
        have : (seen.length : Int) + 1 + 1 > (pages.length : Int) := by
          rw [hlen]; push_cast; simp
        simp [this]
      | cons pg2 rest2 =>
        have hnot : ¬ ((seen.length : Int) + 1 + 1 > (pages.length : Int)) := by
          rw [hlen]; push_cast; simp only [List.length_cons]; push_cast; omega
        simp only [hnot, if_false]
        have := ih (seen ++ [pg]) (by rw [hpages]; simp) (by simp)
          ((pg.filterMap parseItem).foldl (storeItem U) t) fuel
          (by simp only [List.length_cons] at hfuel ⊢; omega)
        simp only [List.length_append, List.length_singleton, Nat.cast_add, Nat.cast_one] at this
        rw [this]
        simp [List.foldl_append, List.filterMap_append]

theorem foldl_storeItem_tempItems (U : UnicodeTables) (its : List Item) (t : TempItems) :
    (its.foldl (storeItem U) t).tempItems
      = its.foldl (fun m it => m.set it.UUID it) t.tempItems := by
  induction its generalizing t with
  | nil => rfl
  | cons a its ih => rw [List.foldl_cons, ih]; rfl

/-- The uuids recorded under a key after storing a list of Items: the uuids
of the Items with that normalized name, in order, after what was recorded
before. -/
theorem foldl_storeItem_tempNames (U : UnicodeTables) (its : List Item) (t : TempItems)
    (key : String) :
    (its.foldl (storeItem U) t).tempNames.get key
      = if (its.filter (fun it => decide (normalize U it.Name = key))).isEmpty
        then t.tempNames.get key
        else some ((t.tempNames.get key).getD []
          ++ (its.filter (fun it => decide (normalize U it.Name = key))).map Item.UUID) := by
  induction its generalizing t with
  | nil => simp
  | cons a its ih =>
    rw [List.foldl_cons, ih]
    have hget : (storeItem U t a).tempNames.get key
        = if key = normalize U a.Name
          then some ((t.tempNames.get (normalize U a.Name)).getD [] ++ [a.UUID])
          else t.tempNames.get key := by
      simp only [storeItem, normalize]
      rw [GoMap.get_set]
    rw [hget]
    by_cases hk : key = normalize U a.Name
    · subst hk
      simp only [List.filter_cons, decide_True, if_true]
      split <;> simp_all
    · have hk2 : ¬ normalize U a.Name = key := fun h => hk h.symm
      simp [List.filter_cons, hk, hk2]

theorem foldl_resolve_eq_filterMap {V : Type} (f : List V → String → List V)
    (g : String → Option V)
    (hf : ∀ acc u, f acc u = (g u).elim acc (fun v => acc ++ [v]))
    (uuids : List String) (acc : List V) :
    uuids.foldl f acc = acc ++ uuids.filterMap g := by
  induction uuids generalizing acc with
  | nil => simp
  | cons u uuids ih =>
    rw [List.foldl_cons, ih, List.filterMap_cons, hf]
    cases g u <;> simp

/-- The loop of `getPlayerContacts` resolves the uuids recorded under the
normalized name, in order, dropping those the item map does not hold. -/
theorem getPlayerContacts_eq (U : UnicodeTables) (itemCache : ItemCache) (name : String) :
    getPlayerContacts U itemCache name
      = ((itemCache.names.get (normalize U name)).getD []).filterMap itemCache.items.get := by
  unfold getPlayerContacts normalize
  cases h : itemCache.names.get (ToLower U (RemoveAccents U name)) with
  | none => simp [h]
  | some uuids =>
    simp only [h, Option.getD_some]
    rw [foldl_resolve_eq_filterMap _ itemCache.items.get _ uuids []]
    · simp
    · intro acc u
      cases itemCache.items.get u <;> rfl

/-- What `getPlayerContacts` returns on the cache built from a list of
stored Items: the uuids recorded under the key, each resolved to the last
Item stored under it. -/
theorem getPlayerContacts_stored (U : UnicodeTables) (its : List Item) (q : String) :
    getPlayerContacts U (storedCache U its) q
      = ((its.filter (fun it => decide (normalize U it.Name = normalize U q))).map
          Item.UUID).filterMap
            (fun u => its.reverse.find? (fun it => it.UUID == u)) := by
  have hn := foldl_storeItem_tempNames U its { tempItems := [], tempNames := [] }
    (normalize U q)
  have hi : ∀ u, ((its.foldl (storeItem U) { tempItems := [], tempNames := [] }).tempItems).get u
      = its.reverse.find? (fun it => it.UUID == u) := by
    intro u
    rw [foldl_storeItem_tempItems, GoMap.get_foldl_set]
    simp [GoMap.get_nil]
  rw [getPlayerContacts_eq]
  simp only [storedCache]
  rw [hn]
  cases hfil : its.filter (fun it => decide (normalize U it.Name = normalize U q)) with
  | nil => simp [GoMap.get_nil]
  | cons a l =>
    simp only [List.isEmpty_cons, GoMap.get_nil, Option.getD_none, List.nil_append,
      Bool.false_eq_true, if_false, Option.getD_some]
    apply List.filterMap_congr
    intro u _
    exact hi u

theorem find_last_of_nodup (its : List Item) (hnd : (its.map Item.UUID).Nodup) (it : Item)
    (hit : it ∈ its) : its.reverse.find? (fun x => x.UUID == it.UUID) = some it := by
  cases hf : its.reverse.find? (fun x => x.UUID == it.UUID) with
  | none =>
    rw [List.find?_eq_none] at hf
    exact absurd (by simp) (hf it (List.mem_reverse.2 hit))
  | some x =>
    have hx : x ∈ its := List.mem_reverse.1 (List.mem_of_find?_eq_some hf)
    have hux : x.UUID = it.UUID := by simpa using List.find?_some hf
    rw [List.inj_on_of_nodup_map hnd hx hit hux]

theorem filterMap_resolve_self (g : String → Option Item) (fl : List Item)
    (h : ∀ it ∈ fl, g it.UUID = some it) : (fl.map Item.UUID).filterMap g = fl := by
  induction fl with
  | nil => rfl
  | cons a fl ih =>
    rw [List.map_cons, List.filterMap_cons, h a (List.mem_cons_self _ _),
      ih (fun it hit => h it (List.mem_cons_of_mem _ hit))]

theorem parseItem_of_isItemRecord (r : JSON) (h : IsItemRecord r) :
    ∃ it, parseItem r = some it ∧ recordUUID r = some it.UUID := by
  obtain ⟨item, uuid, name, ovr, rfl, hu, hn, ho⟩ := h
  exact ⟨itemDetails item uuid name ovr,
    by simp [parseItem, hu, hn, ho, asString, asFloat64],
    by simp [recordUUID, hu, asString, itemDetails]⟩

theorem filterMap_parseItem_uuid (recs : List JSON) (h : ∀ r ∈ recs, IsItemRecord r) :
    (recs.filterMap parseItem).map Item.UUID = recs.filterMap recordUUID ∧
      (recs.filterMap parseItem).length = recs.length := by
  induction recs with
  | nil => exact ⟨rfl, rfl⟩
  | cons r recs ih =>
    obtain ⟨it, hit, hu⟩ := parseItem_of_isItemRecord r (h r (List.mem_cons_self _ _))
    obtain ⟨ih1, ih2⟩ := ih (fun x hx => h x (List.mem_cons_of_mem _ hx))
    simp [List.filterMap_cons, hit, hu, ih1, ih2]

/-- C1. A source serves one or more pages of catalog records, each with a
string uuid, a string name and a numeric ovr, the uuids pairwise different.
Then `loadItems` returns and installs a cache, every record has yielded its
Item, and on that cache `getPlayerContacts(q)` returns exactly the Items
whose normalized name equals the normalized `q`, each once, in the order in
which the records were inserted. -/
theorem getPlayerContacts_after_load (U : UnicodeTables)
    (src : Int → Option (List (String × JSON))) (pages : List (List JSON))
    (itemCache : ItemCache) (q : String)
    (hsrc : ServesItems src pages) (hne : pages ≠ [])
    (hn : (pages.length : Int) + 1 < 2 ^ 63)
    (hwf : ∀ r ∈ pages.flatten, IsItemRecord r)
    (hdistinct : (pages.flatten.filterMap recordUUID).Nodup) :
    ∃ cache, (∀ fuel, pages.length ≤ fuel → loadItems U src fuel itemCache = Run.done cache) ∧
      (pages.flatten.filterMap parseItem).length = pages.flatten.length ∧
      getPlayerContacts U cache q
        = (pages.flatten.filterMap parseItem).filter
            (fun it => decide (normalize U it.Name = normalize U q)) := by
  refine ⟨storedCache U (pages.flatten.filterMap parseItem), fun fuel hfuel => ?_,
    (filterMap_parseItem_uuid _ hwf).2, ?_⟩
  · have := loadItemsLoop_pages U src pages hsrc hn pages [] rfl hne
      { tempItems := [], tempNames := [] } fuel hfuel
    simpa [loadItems, storedCache] using this
  · rw [getPlayerContacts_stored]
    apply filterMap_resolve_self
    intro it hit
    apply find_last_of_nodup
    · rw [(filterMap_parseItem_uuid _ hwf).1]; exact hdistinct
    · exact List.mem_of_mem_filter hit

/-! ## The paged sources used as inputs -/

theorem pagedItems_serves (pages : List (List JSON)) : ServesItems (pagedItems pages) pages := by
  intro i recs h
  have h1 : (1 : Int) ≤ (i : Int) + 1 := by omega
  have h2 : ((i : Int) + 1 - 1).toNat = i := by simp
  refine ⟨[("page", JSON.num (((i : Int) + 1 : Int) : Rat)),
    ("total_pages", JSON.num ((pages.length : Int) : Rat)), ("items", JSON.arr recs)],
    ?_, rfl, rfl, rfl⟩
  simp only [pagedItems, h1, if_true, h2, h, Option.map_some']

theorem pagedListings_serves (pages : List (List Listing)) :
    ServesListings (pagedListings pages) pages := by
  intro i recs h
  have h1 : (1 : Int) ≤ (i : Int) + 1 := by omega
  have h2 : ((i : Int) + 1 - 1).toNat = i := by simp
  refine ⟨ListingResponse.mk ((i : Int) + 1) 25 (pages.length : Int) recs, ?_, rfl, rfl, rfl⟩
  simp only [pagedListings, h1, if_true, h2, h]

theorem playerRecord_isItemRecord (uuid name : String) (ovr : Rat)
    (more : List (String × JSON)) : IsItemRecord (playerRecord uuid name ovr more) :=
  ⟨_, uuid, name, ovr, rfl, rfl, rfl, rfl⟩

/-- Witness of C1: the two cards named Mike Trout are returned, in the
order in which they were inserted. -/
theorem getPlayerContacts_after_load_witness :
    (∃ cache, (∀ fuel, troutPages.length ≤ fuel →
          loadItems ucdFragment (pagedItems troutPages) fuel { items := [], names := [] }
            = Run.done cache) ∧
        (troutPages.flatten.filterMap parseItem).length = troutPages.flatten.length ∧
        getPlayerContacts ucdFragment cache "mike trout"
          = (troutPages.flatten.filterMap parseItem).filter
              (fun it => decide (normalize ucdFragment it.Name
                = normalize ucdFragment "mike trout"))) ∧
      (troutPages.flatten.filterMap parseItem).filter
          (fun it => decide (normalize ucdFragment it.Name
            = normalize ucdFragment "mike trout"))
        = [{ Item.zero with UUID := "u1", Name := "Mike Trout", Ovr := 99, Speed := 80 },
           { Item.zero with UUID := "u3", Name := "Mike Trout", Ovr := 85 }] :=
  ⟨getPlayerContacts_after_load ucdFragment (pagedItems troutPages) troutPages
      { items := [], names := [] } "mike trout" (pagedItems_serves troutPages)
      (by simp [troutPages]) (by decide)
      (by
        intro r hr
        simp only [troutPages, List.flatten, List.mem_append, List.mem_cons,
          List.mem_singleton, List.not_mem_nil, or_false] at hr
        rcases hr with (rfl | rfl) | rfl <;> exact playerRecord_isItemRecord _ _ _ _)
      (by decide),
    rfl⟩

theorem asString_eq_some (v : Option JSON) (s : String) (h : asString v = some s) :
    v = some (JSON.str s) := by
  cases v with
  | none => simp [asString] at h
  | some j => cases j <;> simp_all [asString]

theorem asFloat64_eq_some (v : Option JSON) (x : Rat) (h : asFloat64 v = some x) :
    v = some (JSON.num x) := by
  cases v with
  | none => simp [asFloat64] at h
  | some j => cases j <;> simp_all [asFloat64]

theorem isItemRecord_of_parseItem (r : JSON) (it : Item) (h : parseItem r = some it) :
    IsItemRecord r ∧ recordUUID r = some it.UUID := by
  cases r with
  | obj item =>
    simp only [parseItem] at h
    split at h
    · next uuid name ovr hu hn ho =>
      simp only [Option.some.injEq] at h
      subst h
      exact ⟨⟨item, uuid, name, ovr, rfl, asString_eq_some _ _ hu, asString_eq_some _ _ hn,
        asFloat64_eq_some _ _ ho⟩, hu⟩
    · simp at h
  | _ => simp [parseItem] at h

theorem find_last_isSome {V : Type} (key : V → String) (l : List V) (k : String) :
    (l.reverse.find? (fun x => key x == k)).isSome ↔ ∃ x ∈ l, key x = k := by
  simp [List.find?_isSome]

/-- C3 as stated fails for the item map. The identity `s1` occurs on page 2
of the source, the load completes, and the installed item map has no key
`s1`: the record has no numeric `ovr` and is skipped. -/
theorem loadItems_skips_record_without_ovr :
    (∃ r ∈ stadiumPages.flatten, recordUUID r = some "s1") ∧
      ∃ cache, loadItems ucdFragment (pagedItems stadiumPages) 2 { items := [], names := [] }
          = Run.done cache ∧
        cache.items.get "u1" = some { Item.zero with UUID := "u1", Name := "Mike Trout", Ovr := 99 } ∧
        cache.items.get "s1" = none :=
  ⟨⟨JSON.obj [("uuid", JSON.str "s1"), ("name", JSON.str "Dodger Stadium")],
      by simp [stadiumPages], rfl⟩, _, rfl, rfl, rfl⟩

/-- C3, as amended. A source answers every requested page `p` in `1..n`
(`n` at least 1, `n + 1` within Go's `int`) with `page = p`,
`total_pages = n` and a list of records. Then `loadListings` returns, and
the listing map has as keys exactly the item uuids of the listings on the
pages and maps each to the last listing with that uuid in page order.
Likewise `loadItems` returns, and the item map has as keys exactly the uuids
of the records that have a string uuid, a string name and a numeric ovr, and
maps each to the Item built from the last such record in page order. -/
theorem load_pages_last_wins (U : UnicodeTables)
    (lsrc : Int → ListingFetch) (lpages : List (List Listing)) (listings : GoMap Listing)
    (isrc : Int → Option (List (String × JSON))) (ipages : List (List JSON))
    (itemCache : ItemCache)
    (hl : ServesListings lsrc lpages) (hlne : lpages ≠ [])
    (hln : (lpages.length : Int) + 1 < 2 ^ 63)
    (hi : ServesItems isrc ipages) (hine : ipages ≠ [])
    (hin : (ipages.length : Int) + 1 < 2 ^ 63) :
    (∃ m, (∀ fuel, lpages.length ≤ fuel → loadListings lsrc fuel listings = Run.done m) ∧
        ∀ k, m.get k = lpages.flatten.reverse.find? (fun l => l.Item.UUID == k) ∧
          ((m.get k).isSome ↔ ∃ l ∈ lpages.flatten, l.Item.UUID = k)) ∧
      (∃ cache, (∀ fuel, ipages.length ≤ fuel →
            loadItems U isrc fuel itemCache = Run.done cache) ∧
        ∀ k, cache.items.get k
              = (ipages.flatten.filterMap parseItem).reverse.find? (fun it => it.UUID == k) ∧
          ((cache.items.get k).isSome ↔
            ∃ r ∈ ipages.flatten, IsItemRecord r ∧ recordUUID r = some k)) := by
  constructor
  · refine ⟨lpages.flatten.foldl (fun (m : GoMap Listing) l => m.set l.Item.UUID l) [],
      fun fuel hfuel => ?_, ?_⟩
    · have := loadListingsLoop_pages lsrc lpages hl hln lpages [] rfl hlne [] fuel hfuel
      simpa [loadListings] using this
    · intro k
      have hget : GoMap.get
            (lpages.flatten.foldl (fun (m : GoMap Listing) l => m.set l.Item.UUID l) []) k
          = lpages.flatten.reverse.find? (fun l => l.Item.UUID == k) := by
        rw [GoMap.get_foldl_set (fun l : Listing => l.Item.UUID)]
        simp [GoMap.get_nil]
      exact ⟨hget, by rw [hget]; exact find_last_isSome (fun l : Listing => l.Item.UUID) _ k⟩
  · refine ⟨storedCache U (ipages.flatten.filterMap parseItem), fun fuel hfuel => ?_, ?_⟩
    · have := loadItemsLoop_pages U isrc ipages hi hin ipages [] rfl hine
        { tempItems := [], tempNames := [] } fuel hfuel
      simpa [loadItems, storedCache] using this
    · intro k
      have hget : (storedCache U (ipages.flatten.filterMap parseItem)).items.get k
          = (ipages.flatten.filterMap parseItem).reverse.find? (fun it => it.UUID == k) := by
        simp only [storedCache]
        rw [foldl_storeItem_tempItems, GoMap.get_foldl_set]
        simp [GoMap.get_nil]
      refine ⟨hget, ?_⟩
      rw [hget, find_last_isSome Item.UUID]
      constructor
      · rintro ⟨it, hit, hk⟩
        obtain ⟨r, hr, hpr⟩ := List.mem_filterMap.1 hit
        obtain ⟨hrec, hu⟩ := isItemRecord_of_parseItem r it hpr
        exact ⟨r, hr, hrec, by rw [hu, hk]⟩
      · rintro ⟨r, hr, hrec, hu⟩
        obtain ⟨it, hit, hu2⟩ := parseItem_of_isItemRecord r hrec
        refine ⟨it, List.mem_filterMap.2 ⟨r, hr, hit⟩, ?_⟩
        rw [hu] at hu2
        exact (Option.some.inj hu2).symm

/-- Witness of C3 as amended: three pages of listings and the two pages of
catalog records. -/
theorem load_pages_last_wins_witness :
    (∃ m, (∀ fuel, listingPages.length ≤ fuel →
          loadListings (pagedListings listingPages) fuel [] = Run.done m) ∧
        ∀ k, m.get k = listingPages.flatten.reverse.find? (fun l => l.Item.UUID == k) ∧
          ((m.get k).isSome ↔ ∃ l ∈ listingPages.flatten, l.Item.UUID = k)) ∧
      (∃ cache, (∀ fuel, stadiumPages.length ≤ fuel →
            loadItems ucdFragment (pagedItems stadiumPages) fuel { items := [], names := [] }
              = Run.done cache) ∧
        ∀ k, cache.items.get k
              = (stadiumPages.flatten.filterMap parseItem).reverse.find?
                  (fun it => it.UUID == k) ∧
          ((cache.items.get k).isSome ↔
            ∃ r ∈ stadiumPages.flatten, IsItemRecord r ∧ recordUUID r = some k)) :=
  load_pages_last_wins ucdFragment (pagedListings listingPages) listingPages []
    (pagedItems stadiumPages) stadiumPages { items := [], names := [] }
    (pagedListings_serves listingPages) (by simp [listingPages]) (by decide)
    (pagedItems_serves stadiumPages) (by simp [stadiumPages]) (by decide)

/-! ## Records of the item catalog -/

theorem intField_absent (item : List (String × JSON)) (key : String)
    (h : item.lookup key = none) : intField item key = 0 := by
  have h0 : goInt 0 = 0 := by decide
  simp [intField, h, asFloat64, h0]

theorem intField_present (item : List (String × JSON)) (key : String) (x : Rat)
    (h : item.lookup key = some (JSON.num x)) : intField item key = goInt x := by
  simp [intField, h, asFloat64]

/-- C7 as stated fails. A record with a string uuid and a string name whose
`ovr` is absent is dropped: the loop body stores nothing under its uuid and
does not index its name, and after a completed `loadItems` over a page
holding the record the installed cache has neither. -/
theorem processItem_drops_record_without_ovr :
    parseItem noOvrRecord = none ∧
      (processItem ucdFragment { tempItems := [], tempNames := [] } noOvrRecord).tempItems.get "u7"
        = none ∧
      (processItem ucdFragment { tempItems := [], tempNames := [] } noOvrRecord).tempNames.get
          "shohei ohtani" = none ∧
      ∃ cache, loadItems ucdFragment (pagedItems [[noOvrRecord]]) 1 { items := [], names := [] }
          = Run.done cache ∧
        cache.items.get "u7" = none ∧ cache.names.get "shohei ohtani" = none :=
  ⟨rfl, rfl, rfl, _, rfl, rfl, rfl⟩

theorem itemDetails_builtFrom (item : List (String × JSON)) (uuid name : String) (ovr : Rat) :
    BuiltFrom item uuid name ovr (itemDetails item uuid name ovr) := by
  refine ⟨rfl, rfl, fun h => goInt_of_inIntRange ovr h, ?_⟩
  intro f hf
  simp only [numericFields, List.mem_cons, List.mem_singleton, List.not_mem_nil,
    or_false] at hf
  rcases hf with rfl | rfl | rfl | rfl | rfl | rfl | rfl | rfl | rfl | rfl | rfl | rfl |
    rfl | rfl | rfl <;>
  exact ⟨fun h => intField_absent item _ h,
    fun x h hx => (intField_present item _ x h).trans (goInt_of_inIntRange x hx)⟩

/-- C7, as amended. A source serves the pages of an item catalog; one of the
records has a string uuid, a string name and a numeric ovr. The loop body of
`loadItems` stores under that uuid, whatever the maps held before, an Item
with that uuid and name whose `Ovr` is the record's ovr truncated to an
integer and in which each of the fifteen other numeric fields is 0 when the
field is absent from the record and the record's value truncated to an
integer when it is present as a number (truncated values within Go's `int`);
the record is not dropped whichever of these other fields are missing. When
no later record on the pages carries the same uuid, `loadItems` returns and
the item map it installs holds that Item under the uuid. -/
theorem loadItems_stores_record (U : UnicodeTables)
    (src : Int → Option (List (String × JSON))) (pages : List (List JSON))
    (itemCache : ItemCache) (before after : List JSON) (item : List (String × JSON))
    (uuid name : String) (ovr : Rat)
    (hsrc : ServesItems src pages) (hpages : (pages.length : Int) + 1 < 2 ^ 63)
    (hsplit : pages.flatten = before ++ JSON.obj item :: after)
    (hlast : ∀ r ∈ after, recordUUID r ≠ some uuid)
    (hu : item.lookup "uuid" = some (JSON.str uuid))
    (hn : item.lookup "name" = some (JSON.str name))
    (ho : item.lookup "ovr" = some (JSON.num ovr)) :
    (∀ t : TempItems, ∃ it,
        (processItem U t (JSON.obj item)).tempItems.get uuid = some it ∧
          BuiltFrom item uuid name ovr it) ∧
      ∃ cache it,
        (∀ fuel, pages.length ≤ fuel → loadItems U src fuel itemCache = Run.done cache) ∧
          cache.items.get uuid = some it ∧ BuiltFrom item uuid name ovr it := by
  have hp : parseItem (JSON.obj item) = some (itemDetails item uuid name ovr) := by
    simp [parseItem, hu, hn, ho, asString, asFloat64]
  constructor
  · intro t
    refine ⟨itemDetails item uuid name ovr, ?_, itemDetails_builtFrom item uuid name ovr⟩
    simp only [processItem, hp, storeItem]
    rw [GoMap.get_set]
    simp [itemDetails]
  · have hne : pages ≠ [] := by
      intro h
      rw [h] at hsplit
      simp at hsplit
    refine ⟨storedCache U (pages.flatten.filterMap parseItem), itemDetails item uuid name ovr,
      fun fuel hfuel => ?_, ?_, itemDetails_builtFrom item uuid name ovr⟩
    · have := loadItemsLoop_pages U src pages hsrc hpages pages [] rfl hne
        { tempItems := [], tempNames := [] } fuel hfuel
      simpa [loadItems, storedCache] using this
    · have hnone : (after.filterMap parseItem).reverse.find? (fun it => it.UUID == uuid)
          = none := by
        rw [List.find?_eq_none]
        intro x hx
        obtain ⟨r, hr, hpr⟩ := List.mem_filterMap.1 (List.mem_reverse.1 hx)
        have hux := (isItemRecord_of_parseItem r x hpr).2
        intro hxu
        apply hlast r hr
        rw [hux]
        simpa using hxu
      simp only [storedCache]
      rw [foldl_storeItem_tempItems, GoMap.get_foldl_set, hsplit, List.filterMap_append,
        List.filterMap_cons, hp, List.reverse_append, List.reverse_cons, List.append_assoc,
        List.find?_append, hnone]
      simp [itemDetails]

/-- Witness of C7 as amended: the card with a fractional speed and a
negative fractional reaction time, on the first of two pages. The installed
Item has speed 80 and reaction time -3. -/
theorem loadItems_stores_record_witness :
    ((∀ t : TempItems, ∃ it,
        (processItem ucdFragment t (JSON.obj fractionItem)).tempItems.get "u1" = some it ∧
          BuiltFrom fractionItem "u1" "Mike Trout" 99 it) ∧
      ∃ cache it,
        (∀ fuel, fractionPages.length ≤ fuel →
          loadItems ucdFragment (pagedItems fractionPages) fuel { items := [], names := [] }
            = Run.done cache) ∧
          cache.items.get "u1" = some it ∧ BuiltFrom fractionItem "u1" "Mike Trout" 99 it) ∧
    ∃ cache, loadItems ucdFragment (pagedItems fractionPages) 2 { items := [], names := [] }
        = Run.done cache ∧
      cache.items.get "u1"
        = some { Item.zero with
            UUID := "u1", Name := "Mike Trout", Ovr := 99, Speed := 80, Reaction := -3 } :=
  ⟨loadItems_stores_record ucdFragment (pagedItems fractionPages) fractionPages
      { items := [], names := [] } [] [playerRecord "u2" "Mookie Betts" 97 []] fractionItem
      "u1" "Mike Trout" 99 (pagedItems_serves fractionPages) (by decide) rfl
      (by
        intro r hr
        simp only [List.mem_singleton] at hr
        subst hr
        decide)
      rfl rfl rfl,
    _, rfl, rfl⟩

/-- The conversion `int(f)` rounds towards zero; a value that does not fit
the 64-bit `int` gives the smallest `int` in the model. -/
theorem goInt_examples :
    goInt 99 = 99 ∧ goInt (mkRat 161 2) = 80 ∧ goInt (mkRat (-7) 2) = -3 ∧
      goInt 10000000000000000000 = -9223372036854775808 := by
  decide

/-! ## Failed attempts in the items loader -/

/-- C8: the code at the failing inputs. When an attempt leaves `itemResult`
without a numeric `page` or `total_pages` (every request fails; the response
has items but no page fields; the response has `page` but no `total_pages`;
page 1 is served and page 2 fails), `loadItems` panics at the type
assertions after the closure and installs nothing, whatever the bound on the
number of requests. On the same kind of source `loadListings` returns and
installs the empty map. -/
theorem loadItems_panics_without_page (U : UnicodeTables) (fuel : Nat)
    (itemCache : ItemCache) :
    loadItems U (fun _ => none) (fuel + 1) itemCache = Run.panic ∧
      loadItems U (fun _ => some [("items", JSON.arr [playerRecord "u1" "Mike Trout" 99 []])])
        (fuel + 1) itemCache = Run.panic ∧
      loadItems U (fun _ => some [("page", JSON.num 1)]) (fuel + 1) itemCache = Run.panic ∧
      loadItems U secondPageFails (fuel + 2) itemCache = Run.panic ∧
      loadListings (fun _ => ListingFetch.requestError) (fuel + 1) [] = Run.done [] :=
  ⟨rfl, rfl, rfl, rfl, rfl⟩

/-! ## Eligible captains -/

theorem parseItem_batHand (r : JSON) (it : Item) (h : parseItem r = some it) :
    it.BatHand = "" ∧ it.Team = "" := by
  cases r with
  | obj item =>
    simp only [parseItem] at h
    split at h
    · simp only [Option.some.injEq] at h
      subst h
      exact ⟨rfl, rfl⟩
    · simp at h
  | _ => simp [parseItem] at h

theorem isPlayerEligibleForCaptain_blank (U : UnicodeTables) (item : Item) (captain : Captain)
    (hb : item.BatHand = "") (ht : item.Team = "") :
    isPlayerEligibleForCaptain U item captain = false := by
  have h1 : (("" : String) == "S") = false := by decide
  have h2 : (("" : String) == "New York Yankees") = false := by decide
  simp [isPlayerEligibleForCaptain, hb, ht, h1, h2]

/-- Every Item the loop of `loadItems` stores has an empty `BatHand` and an
empty `Team`. -/
theorem loadItemsLoop_blank (U : UnicodeTables) (src : Int → Option (List (String × JSON)))
    (fuel : Nat) (p : Int) (t : TempItems) (cache : ItemCache)
    (ht : ∀ e ∈ t.tempItems, e.2.BatHand = "" ∧ e.2.Team = "")
    (h : loadItemsLoop U src fuel p t = Run.done cache) :
    ∀ e ∈ cache.items, e.2.BatHand = "" ∧ e.2.Team = "" := by
  have hstep : ∀ (recs : List JSON) (t : TempItems),
      (∀ e ∈ t.tempItems, e.2.BatHand = "" ∧ e.2.Team = "") →
      ∀ e ∈ (recs.foldl (processItem U) t).tempItems, e.2.BatHand = "" ∧ e.2.Team = "" := by
    intro recs
    induction recs with
    | nil => intro t ht; exact ht
    | cons r recs ih =>
      intro t ht
      rw [List.foldl_cons]
      apply ih
      intro e he
      unfold processItem at he
      cases hp : parseItem r with
      | none => rw [hp] at he; exact ht e he
      | some it =>
        rw [hp] at he
        rcases GoMap.mem_set _ _ _ e he with h1 | h1
        · rw [h1]; exact parseItem_batHand r it hp
        · exact ht e h1
  have hpage : ∀ (itemResult : List (String × JSON)) (t : TempItems),
      (∀ e ∈ t.tempItems, e.2.BatHand = "" ∧ e.2.Team = "") →
      ∀ e ∈ (processPage U itemResult t).tempItems, e.2.BatHand = "" ∧ e.2.Team = "" := by
    intro itemResult t ht
    unfold processPage
    split
    · split
      · exact ht
      · exact hstep _ t ht
    · exact ht
  induction fuel generalizing p t with
  | zero => simp [loadItemsLoop] at h
  | succ fuel ih =>
    simp only [loadItemsLoop] at h
    split at h
    · split at h
      · split at h
        · cases h
          exact hpage _ t ht
        · exact ih _ _ (hpage _ t ht) h
      · cases h
    · cases h

/-- After any completed `loadItems`, `findEligibleCaptains` returns no
captain, whatever the captain dataset and the name. -/
theorem findEligibleCaptains_after_load (U : UnicodeTables)
    (src : Int → Option (List (String × JSON))) (fuel : Nat) (itemCache cache : ItemCache)
    (h : loadItems U src fuel itemCache = Run.done cache)
    (captainsMap : GoMap Captain) (playerName : String) :
    findEligibleCaptains U cache captainsMap playerName = [] := by
  have hblank := loadItemsLoop_blank U src fuel 1 { tempItems := [], tempNames := [] } cache
    (fun e he => absurd he (List.not_mem_nil e)) h
  have hinner : ∀ (item : Item), item.BatHand = "" ∧ item.Team = "" →
      ∀ (caps : List Captain) (acc : List Captain),
        caps.foldl (fun (eligibleCaptains : List Captain) captain =>
          if isPlayerEligibleForCaptain U item captain then eligibleCaptains ++ [captain]
          else eligibleCaptains) acc = acc := by
    intro item hitem caps
    induction caps with
    | nil => intro acc; rfl
    | cons c caps ih =>
      intro acc
      rw [List.foldl_cons, isPlayerEligibleForCaptain_blank U item c hitem.1 hitem.2]
      exact ih acc
  unfold findEligibleCaptains
  cases hn : cache.names.get (ToLower U (RemoveAccents U playerName)) with
  | none => simp [hn]
  | some uuids =>
    simp only [hn]
    have houter : ∀ (us : List String) (acc : List Captain),
        us.foldl (fun (eligibleCaptains : List Captain) uuid =>
          match cache.items.get uuid with
          | some item =>
            captainsMap.values.foldl (fun (eligibleCaptains : List Captain) captain =>
              if isPlayerEligibleForCaptain U item captain then eligibleCaptains ++ [captain]
              else eligibleCaptains) eligibleCaptains
          | none => eligibleCaptains) acc = acc := by
      intro us
      induction us with
      | nil => intro acc; rfl
      | cons u us ih =>
        intro acc
        rw [List.foldl_cons]
        cases hg : cache.items.get u with
        | none => simp only []; exact ih acc
        | some item =>
          simp only []
          rw [hinner item (hblank (u, item) (lookup_some_mem u item cache.items hg))]
          exact ih acc
    exact houter uuids []

/-- C6: the code at the failing input. The catalog serves a card named
Chipper Jones with `bat_hand` "S" and the dataset holds a captain whose
description contains "switch hitter". The load completes; the stored Item
has an empty `BatHand` because `loadItems` never copies `bat_hand`; the
eligibility rule would accept the captain for an Item whose `BatHand` is
"S"; `findEligibleCaptains` returns no captain. -/
theorem findEligibleCaptains_misses_switch_hitter :
    ∃ cache, loadItems ucdFragment (pagedItems switchPages) 1 { items := [], names := [] }
        = Run.done cache ∧
      getPlayerContacts ucdFragment cache "Chipper Jones"
        = [{ Item.zero with UUID := "u1", Name := "Chipper Jones", Ovr := 99 }] ∧
      Contains (ToLower ucdFragment switchCaptain.AbilityDesc) "switch hitter" = true ∧
      isPlayerEligibleForCaptain ucdFragment
        { Item.zero with UUID := "u1", Name := "Chipper Jones", Ovr := 99, BatHand := "S" }
        switchCaptain = true ∧
      findEligibleCaptains ucdFragment cache [("c1", switchCaptain)] "Chipper Jones" = [] :=
  ⟨_, rfl, rfl, rfl, rfl, rfl⟩

/-! ## The chat handler -/

theorem isPrefixOf_append_of_clash (q p rest : List Char) (h : clash q p = true) :
    q.isPrefixOf (p ++ rest) = false := by
  induction q generalizing p with
  | nil => simp [clash] at h
  | cons a q ih =>
    cases p with
    | nil => simp [clash] at h
    | cons b p =>
      by_cases hab : a = b
      · subst hab
        simp only [clash, if_true] at h
        simp [List.isPrefixOf, ih p h]
      · simp [List.isPrefixOf, hab]

theorem isPrefixOf_append_self (p rest : List Char) : p.isPrefixOf (p ++ rest) = true := by
  induction p with
  | nil => simp [List.isPrefixOf]
  | cons a p ih => simp [List.isPrefixOf, ih]

theorem startsWith_of_clash (p q arg : String) (h : clash q.data p.data = true) :
    startsWith (p ++ arg) q = false := by
  simp only [startsWith, String.data_append]
  exact isPrefixOf_append_of_clash _ _ _ h

theorem startsWith_self (p arg : String) : startsWith (p ++ arg) p = true := by
  simp only [startsWith, String.data_append]
  exact isPrefixOf_append_self _ _

theorem trimStart_self (p arg : String) : trimStart (p ++ arg) p = arg := by
  simp [trimStart, startsWith_self, String.data_append]

theorem sayItems_eq (contactItems : List Item) (format : Item → String)
    (notAvailable : String) :
    sayItems contactItems format notAvailable
      = if contactItems.isEmpty then [notAvailable] else contactItems.map format := by
  unfold sayItems
  cases contactItems.isEmpty <;> rfl

/-- C10 as stated fails. The verb `price` followed by a space and the
argument text "Trout" is a recognized command, and the handler produces no
reply at all: it replies only when the argument contains a space. With an
argument that contains one it replies once per listing found. -/
theorem price_without_space_no_reply :
    OnPrivateMessage ucdFragment [("u1", troutListing)] troutCache [] "!price Trout" = [] ∧
      OnPrivateMessage ucdFragment [("u1", troutListing)] troutCache [] "!price Mike Trout"
        = ["[PRICE] Mike Trout (99) |   | Buy now: 500 | Sell now: 450\n"] ∧
      OnPrivateMessage ucdFragment [("u1", troutListing)] troutCache [] "!price Babe Ruth"
        = ["Player Card not found"] := by
  decide

/-- The handler of `!hittingclutch` trims the prefix `!clutch ` and so looks
up the whole message: the card of Mike Trout is in the cache and the reply is
the fallback. -/
theorem hittingclutch_looks_up_message :
    getPlayerContacts ucdFragment troutCache "Mike Trout"
        = [{ Item.zero with UUID := "u1", Name := "Mike Trout", Ovr := 99, Clutch := 120 }] ∧
      trimStart "!hittingclutch Mike Trout" "!clutch " = "!hittingclutch Mike Trout" ∧
      OnPrivateMessage ucdFragment [] troutCache [] "!hittingclutch Mike Trout"
        = ["Clutch information not available."] :=
  ⟨rfl, by decide, by decide⟩

/-- C10, as amended. For each of the verbs contact, hitsper9, walksper9,
power, speed, vision, pitchingclutch, fielding, arm, armaccuracy, reaction
and strikeoutsper9 there are a fixed template and a fixed not-found text such
that the message `!verb argument` is answered by looking up exactly the
argument with `getPlayerContacts`: one reply per Item found, or the single
not-found reply when nothing is found. The verb theme does the same with
`findEligibleCaptains`. The verb price does the same with `findCard` when the
argument contains a space, and produces no reply when it does not. -/
theorem OnPrivateMessage_replies :
    (∀ v ∈ itemVerbs, ∃ (format : Item → String) (notFound : String),
      ∀ (U : UnicodeTables) (listings : GoMap Listing) (itemCache : ItemCache)
        (captainsMap : GoMap Captain) (arg : String),
        OnPrivateMessage U listings itemCache captainsMap ("!" ++ v ++ " " ++ arg)
          = if (getPlayerContacts U itemCache arg).isEmpty then [notFound]
            else (getPlayerContacts U itemCache arg).map format) ∧
    (∃ (format : String → Captain → String) (notFound : String),
      ∀ (U : UnicodeTables) (listings : GoMap Listing) (itemCache : ItemCache)
        (captainsMap : GoMap Captain) (arg : String),
        OnPrivateMessage U listings itemCache captainsMap ("!" ++ "theme" ++ " " ++ arg)
          = if (findEligibleCaptains U itemCache captainsMap arg).isEmpty then [notFound]
            else (findEligibleCaptains U itemCache captainsMap arg).map (format arg)) ∧
    (∃ (format : Listing → String) (notFound : String),
      ∀ (U : UnicodeTables) (listings : GoMap Listing) (itemCache : ItemCache)
        (captainsMap : GoMap Captain) (arg : String),
        OnPrivateMessage U listings itemCache captainsMap ("!" ++ "price" ++ " " ++ arg)
          = if Contains arg " " then
              (if (findCard U listings arg).isEmpty then [notFound]
               else (findCard U listings arg).map format)
            else []) := by
  refine ⟨?_, ?_, ?_⟩
  · intro v hv
    simp only [itemVerbs, List.mem_cons, List.mem_singleton, List.not_mem_nil, or_false] at hv
    rcases hv with rfl | rfl | rfl | rfl | rfl | rfl | rfl | rfl | rfl | rfl | rfl | rfl
    · apply Exists.intro
      apply Exists.intro
      intro U listings itemCache captainsMap arg
      rw [show "!" ++ "contact" ++ " " = "!contact " by decide, ← sayItems_eq]
      simp (disch := decide) only [OnPrivateMessage, startsWith_of_clash, startsWith_self,
        trimStart_self, Bool.false_eq_true, if_false, if_true]
      rfl
    · apply Exists.intro
      apply Exists.intro
      intro U listings itemCache captainsMap arg
      rw [show "!" ++ "hitsper9" ++ " " = "!hitsper9 " by decide, ← sayItems_eq]
      simp (disch := decide) only [OnPrivateMessage, startsWith_of_clash, startsWith_self,
        trimStart_self, Bool.false_eq_true, if_false, if_true]
      rfl
    · apply Exists.intro
      apply Exists.intro
      intro U listings itemCache captainsMap arg
      rw [show "!" ++ "walksper9" ++ " " = "!walksper9 " by decide, ← sayItems_eq]
      simp (disch := decide) only [OnPrivateMessage, startsWith_of_clash, startsWith_self,
        trimStart_self, Bool.false_eq_true, if_false, if_true]
      rfl
    · apply Exists.intro
      apply Exists.intro
      intro U listings itemCache captainsMap arg
      rw [show "!" ++ "power" ++ " " = "!power " by decide, ← sayItems_eq]
      simp (disch := decide) only [OnPrivateMessage, startsWith_of_clash, startsWith_self,
        trimStart_self, Bool.false_eq_true, if_false, if_true]
      rfl
    · apply Exists.intro
      apply Exists.intro
      intro U listings itemCache captainsMap arg
      rw [show "!" ++ "speed" ++ " " = "!speed " by decide, ← sayItems_eq]
      simp (disch := decide) only [OnPrivateMessage, startsWith_of_clash, startsWith_self,
        trimStart_self, Bool.false_eq_true, if_false, if_true]
      rfl
    · apply Exists.intro
      apply Exists.intro
      intro U listings itemCache captainsMap arg
      rw [show "!" ++ "vision" ++ " " = "!vision " by decide, ← sayItems_eq]
      simp (disch := decide) only [OnPrivateMessage, startsWith_of_clash, startsWith_self,
        trimStart_self, Bool.false_eq_true, if_false, if_true]
      rfl
    · apply Exists.intro
      apply Exists.intro
      intro U listings itemCache captainsMap arg
      rw [show "!" ++ "pitchingclutch" ++ " " = "!pitchingclutch " by decide, ← sayItems_eq]
      simp (disch := decide) only [OnPrivateMessage, startsWith_of_clash, startsWith_self,
        trimStart_self, Bool.false_eq_true, if_false, if_true]
      rfl
    · apply Exists.intro
      apply Exists.intro
      intro U listings itemCache captainsMap arg
      rw [show "!" ++ "fielding" ++ " " = "!fielding " by decide, ← sayItems_eq]
      simp (disch := decide) only [OnPrivateMessage, startsWith_of_clash, startsWith_self,
        trimStart_self, Bool.false_eq_true, if_false, if_true]
      rfl
    · apply Exists.intro
      apply Exists.intro
      intro U listings itemCache captainsMap arg
      rw [show "!" ++ "arm" ++ " " = "!arm " by decide, ← sayItems_eq]
      simp (disch := decide) only [OnPrivateMessage, startsWith_of_clash, startsWith_self,
        trimStart_self, Bool.false_eq_true, if_false, if_true]
      rfl
    · apply Exists.intro
      apply Exists.intro
      intro U listings itemCache captainsMap arg
      rw [show "!" ++ "armaccuracy" ++ " " = "!armaccuracy " by decide, ← sayItems_eq]
      simp (disch := decide) only [OnPrivateMessage, startsWith_of_clash, startsWith_self,
        trimStart_self, Bool.false_eq_true, if_false, if_true]
      rfl
    · apply Exists.intro
      apply Exists.intro
      intro U listings itemCache captainsMap arg
      rw [show "!" ++ "reaction" ++ " " = "!reaction " by decide, ← sayItems_eq]
      simp (disch := decide) only [OnPrivateMessage, startsWith_of_clash, startsWith_self,
        trimStart_self, Bool.false_eq_true, if_false, if_true]
      rfl
    · apply Exists.intro
      apply Exists.intro
      intro U listings itemCache captainsMap arg
      rw [show "!" ++ "strikeoutsper9" ++ " " = "!strikeoutsper9 " by decide, ← sayItems_eq]
      simp (disch := decide) only [OnPrivateMessage, startsWith_of_clash, startsWith_self,
        trimStart_self, Bool.false_eq_true, if_false, if_true]
      rfl
  · refine ⟨themeText, "No matching themes found for the player.",
      fun U listings itemCache captainsMap arg => ?_⟩
    rw [show "!" ++ "theme" ++ " " = "!theme " by decide]
    simp (disch := decide) only [OnPrivateMessage, startsWith_of_clash, startsWith_self,
      trimStart_self, Bool.false_eq_true, if_false, if_true]
    cases findEligibleCaptains U itemCache captainsMap arg <;> simp
  · refine ⟨priceText, "Player Card not found",
      fun U listings itemCache captainsMap arg => ?_⟩
    rw [show "!" ++ "price" ++ " " = "!price " by decide]
    simp (disch := decide) only [OnPrivateMessage, startsWith_of_clash, startsWith_self,
      trimStart_self, Bool.false_eq_true, if_false, if_true]
    cases findCard U listings arg <;> simp

/-! ## Lookup of items on an arbitrary cache -/

/-- C11. `getPlayerContacts` is a total function of the cache and the query:
whatever the item map and the name index hold, consistent with each other or
not, it returns the Items of the uuids listed under the normalized query
key that are present in the item map, in the order of the index, skipping
the uuids the item map does not hold, and it returns the empty list when the
normalized key is not in the name index. On a cache whose index lists a uuid
that the item map lacks, the other two Items are returned in index order;
on a cache without the name the result is empty. -/
theorem getPlayerContacts_never_fails (U : UnicodeTables) (itemCache : ItemCache)
    (name : String) :
    (∀ uuids, itemCache.names.get (normalize U name) = some uuids →
        getPlayerContacts U itemCache name = uuids.filterMap itemCache.items.get) ∧
      (itemCache.names.get (normalize U name) = none →
        getPlayerContacts U itemCache name = []) ∧
      (∀ item, item ∈ getPlayerContacts U itemCache name ↔
        ∃ uuids, itemCache.names.get (normalize U name) = some uuids ∧
          ∃ uuid ∈ uuids, itemCache.items.get uuid = some item) ∧
      getPlayerContacts ucdFragment
          { items := [("u3", { Item.zero with UUID := "u3", Name := "Mike Trout", Ovr := 85 }),
                      ("u1", { Item.zero with UUID := "u1", Name := "Mike Trout", Ovr := 99 })]
            names := [("mike trout", ["u1", "gone", "u3"])] } "Mike Trout"
        = [{ Item.zero with UUID := "u1", Name := "Mike Trout", Ovr := 99 },
           { Item.zero with UUID := "u3", Name := "Mike Trout", Ovr := 85 }] ∧
      getPlayerContacts ucdFragment troutCache "nonexistent" = [] := by
  refine ⟨?_, ?_, ?_, rfl, rfl⟩
  · intro uuids h
    rw [getPlayerContacts_eq, h]
    rfl
  · intro h
    rw [getPlayerContacts_eq, h]
    rfl
  · intro item
    rw [getPlayerContacts_eq]
    cases h : itemCache.names.get (normalize U name) with
    | none => simp
    | some uuids => simp [List.mem_filterMap]

end TheShowBot
